import Mathlib

/-!
# Leaf model handler of the cluster tree (kosmos)

A shallow embedding of
`pkg/clustertree/cluster-manager/utils/leaf_model_handler.go`:
the mode classifier (`NewLeafModelHandler`, `GetLeafMode`), the synthetic node
materializer (`createNode`, `CreateRootNode`), the status reconciler
(`UpdateRootNodeStatus`, `updateTaints`) and the master node health check
(`checkAllMasterNodesNotReady`).

Conventions of the embedding

* A Go `string` is its sequence of bytes (`len` counts bytes, `s[:63]` cuts
  bytes), so `GoString` is `List UInt8`.
* A Go pointer, map or slice that the code tests against `nil` (or that
  panics when it is `nil`) is an `Option`; `none` is `nil`.
* A Go `map[string]V` is an association list without repeated keys, written
  through `mapSet`; its `len` is the length of the list.
* A Go function that can panic returns `Except GoPanic _`; a Go `error` is a
  value of `Err`.
* The two API servers are explicit: the root cluster is a store of nodes
  that is passed along (`World`), together with the list of requests made to
  it; the leaf cluster and the helpers of the repository that this file only
  calls are read from an environment (`Env`).
-/

namespace Kosmos

/-! ## Strings -/

/-- A Go string: a sequence of bytes. -/
abbrev GoString := List UInt8

/-- The bytes of a string literal of the source. -/
def str (s : String) : GoString := s.toUTF8.data.toList

/-- What `%v` prints for a non-negative `int`: its decimal digits. -/
def fmtInt (n : Nat) : GoString := (Nat.toDigits 10 n).map (fun c => c.toNat.toUInt8)

/-! ## Go maps with string keys -/

/-- The entry of key `k`, or none: `v, ok := m[k]`. -/
def mapGet {V : Type} (m : List (GoString × V)) (k : GoString) : Option V :=
  match m with
  | [] => none
  | (k', v) :: rest => if k' = k then some v else mapGet rest k

/-- The assignment `m[k] = v`: overwrites the entry of `k` when there is one. -/
def mapSet {V : Type} (m : List (GoString × V)) (k : GoString) (v : V) : List (GoString × V) :=
  match m with
  | [] => [(k, v)]
  | (k', v') :: rest => if k' = k then (k, v) :: rest else (k', v') :: mapSet rest k v

/-- The keys of a map. -/
def mapKeys {V : Type} (m : List (GoString × V)) : List GoString := m.map Prod.fst

/-! ## The cluster object (kosmosv1alpha1) -/

/-- A requirement of a label selector (metav1.LabelSelectorRequirement). -/
structure LabelSelectorRequirement where
  Key : GoString := []
  Operator : GoString := []
  Values : Option (List GoString) := none
deriving DecidableEq, Repr

/-- A label selector (metav1.LabelSelector); its zero value has a nil map and
a nil slice. -/
structure LabelSelector where
  MatchLabels : Option (List (GoString × GoString)) := none
  MatchExpressions : Option (List LabelSelectorRequirement) := none
deriving DecidableEq, Repr

/-- The selector of a leaf model: `NodeName string` and
`LabelSelector *metav1.LabelSelector` (a pointer: the source compares it with
`nil` and hands it to `metav1.FormatLabelSelector`). -/
structure NodeSelector where
  NodeName : GoString := []
  LabelSelector : Option LabelSelector := none
deriving DecidableEq, Repr

/-- One entry of `Spec.ClusterTreeOptions.LeafModels`; the fields the handler
reads. -/
structure LeafModel where
  LeafNodeName : GoString := []
  NodeSelector : NodeSelector := {}
deriving DecidableEq, Repr

/-- The cluster object; `LeafModels` stands for
`Spec.ClusterTreeOptions.LeafModels`, a slice that may be nil. -/
structure Cluster where
  Name : GoString
  LeafModels : Option (List LeafModel) := none
deriving DecidableEq, Repr

/-- The projection mode of a leaf cluster. -/
inductive LeafMode where
  | ALL
  | Party
  | Node
deriving DecidableEq, Repr

/-- A Go run-time panic. -/
inductive GoPanic where
  /-- An index expression `s[i]` with `i` outside the slice. -/
  | indexOutOfRange
  /-- A field access through a nil pointer. -/
  | nilPointerDereference
  /-- An assignment `m[k] = v` to a nil map. -/
  | assignmentToNilMap
deriving DecidableEq, Repr

/-! ## reflect.DeepEqual -/

/-- The values the source hands to `reflect.DeepEqual`, with their Go type. -/
inductive GoValue where
  /-- A `kosmosv1alpha1.NodeSelector`. -/
  | nodeSelector (v : NodeSelector)
  /-- A `*metav1.LabelSelector`. -/
  | labelSelectorPtr (p : Option LabelSelector)
  /-- A `metav1.LabelSelector`. -/
  | labelSelector (v : LabelSelector)
deriving DecidableEq, Repr

/-- Deep equality of two `map[string]string`: both nil, or both non-nil with
the same length and the same value under every key. -/
def mapDeepEqual (a b : Option (List (GoString × GoString))) : Bool :=
  match a, b with
  | none, none => true
  | some x, some y => x.length == y.length && x.all (fun kv => mapGet y kv.1 == some kv.2)
  | _, _ => false

/-- Deep equality of two `[]LabelSelectorRequirement`: both nil, or both
non-nil and equal element by element. -/
def requirementsDeepEqual (a b : Option (List LabelSelectorRequirement)) : Bool :=
  match a, b with
  | none, none => true
  | some x, some y => decide (x = y)
  | _, _ => false

/-- Deep equality of two `metav1.LabelSelector` values, field by field. -/
def labelSelectorDeepEqual (a b : LabelSelector) : Bool :=
  mapDeepEqual a.MatchLabels b.MatchLabels &&
    requirementsDeepEqual a.MatchExpressions b.MatchExpressions

/-- Deep equality of two `*metav1.LabelSelector`: both nil, or both non-nil
with deeply equal pointees. -/
def labelSelectorPtrDeepEqual (a b : Option LabelSelector) : Bool :=
  match a, b with
  | none, none => true
  | some x, some y => labelSelectorDeepEqual x y
  | _, _ => false

/-- The function `reflect.DeepEqual(x, y)`: values of distinct types are never
deeply equal; values of one type are compared field by field. -/
def reflectDeepEqual : GoValue → GoValue → Bool
  | .nodeSelector a, .nodeSelector b =>
      decide (a.NodeName = b.NodeName) && labelSelectorPtrDeepEqual a.LabelSelector b.LabelSelector
  | .labelSelectorPtr a, .labelSelectorPtr b => labelSelectorPtrDeepEqual a b
  | .labelSelector a, .labelSelector b => labelSelectorDeepEqual a b
  | _, _ => false

/-! ## The classifier -/

/-- The handler: its mode and its cluster. The two client sets of the source
are the `World` and the `Env` the operations take. -/
structure ClassificationHandler where
  leafMode : LeafMode
  Cluster : Cluster
deriving DecidableEq, Repr

/-- The method `GetLeafMode` (lines 52-55). -/
def ClassificationHandler.GetLeafMode (h : ClassificationHandler) : LeafMode := h.leafMode

/-- The function `NewLeafModelHandler` (lines 306-326). The guard of line 317
is `leafModels != nil && !reflect.DeepEqual(leafModels[0].NodeSelector, ...)`:
on a non-nil slice the index expression `leafModels[0]` is evaluated, and
panics when the slice has no element. Line 318 compares the pointer
`LabelSelector` with the struct value `metav1.LabelSelector{}`. -/
def NewLeafModelHandler (cluster : Cluster) : Except GoPanic ClassificationHandler :=
  let classificationModel : ClassificationHandler := { leafMode := LeafMode.ALL, Cluster := cluster }
  let leafModels := cluster.LeafModels
  match leafModels with
  | none => Except.ok classificationModel
  | some [] => Except.error GoPanic.indexOutOfRange
  | some (leafModels0 :: _) =>
    if !reflectDeepEqual (GoValue.nodeSelector leafModels0.NodeSelector) (GoValue.nodeSelector {}) then
      if leafModels0.NodeSelector.LabelSelector != none &&
          !reflectDeepEqual (GoValue.labelSelectorPtr leafModels0.NodeSelector.LabelSelector)
            (GoValue.labelSelector {}) then
        Except.ok { classificationModel with leafMode := LeafMode.Party }
      else if leafModels0.NodeSelector.NodeName != [] then
        Except.ok { classificationModel with leafMode := LeafMode.Node }
      else
        Except.ok classificationModel
    else
      Except.ok classificationModel

/-! ## Errors -/

/-- The reason of an API status error (metav1.StatusReason), as far as the
handler tells reasons apart. -/
inductive StatusReason where
  | NotFound
  | AlreadyExists
  | Conflict
  | ServiceUnavailable
deriving DecidableEq, Repr

/-- A Go `error` value. -/
inductive Err where
  /-- An API status error (`*errors.StatusError`). -/
  | status (reason : StatusReason)
  /-- The error of `fmt.Errorf(text)`: a plain error. -/
  | errorText (text : GoString)
  /-- The error of `fmt.Errorf(text + "%v", err)`: a plain error that prints
  its cause and does not wrap it. -/
  | errorf (text : GoString) (cause : Err)
deriving DecidableEq, Repr

/-- The test `errors.IsNotFound`. -/
def IsNotFound : Err → Bool
  | Err.status StatusReason.NotFound => true
  | _ => false

/-- The test `errors.IsConflict`. -/
def IsConflict : Err → Bool
  | Err.status StatusReason.Conflict => true
  | _ => false

/-- How a Go call ends when it does not return its value: with an error
result, or with a panic. -/
inductive Failure where
  | error (err : Err)
  | panic (p : GoPanic)
deriving DecidableEq, Repr

/-! ## Nodes (corev1) -/

/-- A taint (corev1.Taint). -/
structure Taint where
  Key : GoString
  Value : GoString
  Effect : GoString
deriving DecidableEq, Repr

/-- A node condition (corev1.NodeCondition); `Type_` is the field `Type`. -/
structure NodeCondition where
  Type_ : GoString := []
  Status : GoString := []
  Reason : GoString := []
  Message : GoString := []
deriving DecidableEq, Repr

/-- A node address (corev1.NodeAddress); `Type_` is the field `Type`. -/
structure NodeAddress where
  Type_ : GoString
  Address : GoString
deriving DecidableEq, Repr

/-- A resource list (corev1.ResourceList), quantities as integers. -/
abbrev ResourceList := List (GoString × Int)

/-- The status of a node; `KubeletVersion` is `NodeInfo.KubeletVersion` and
`KubeletEndpointPort` is `DaemonEndpoints.KubeletEndpoint.Port`. -/
structure NodeStatus where
  Conditions : List NodeCondition := []
  Addresses : List NodeAddress := []
  Allocatable : ResourceList := []
  Capacity : ResourceList := []
  KubeletVersion : GoString := []
  KubeletEndpointPort : Int := 0
deriving DecidableEq, Repr

/-- A node (corev1.Node); `Annotations` is a map that may be nil, `Taints`
is `Spec.Taints`. -/
structure Node where
  Name : GoString
  Labels : List (GoString × GoString) := []
  Annotations : Option (List (GoString × GoString)) := none
  Taints : List Taint := []
  Status : NodeStatus := {}
deriving DecidableEq, Repr

/-- A pod (corev1.Pod), as far as the handler lists them. -/
structure Pod where
  Name : GoString
  NodeName : GoString
deriving DecidableEq, Repr

/-- The options of a list request (metav1.ListOptions). -/
structure ListOptions where
  LabelSelector : GoString := []
  FieldSelector : GoString := []
deriving DecidableEq, Repr

/-- What `Nodes().List` returns: a list pointer and an error. -/
structure NodeListResult where
  list : Option (List Node)
  err : Option Err
deriving DecidableEq, Repr

/-- What `Pods(ns).List` returns: a list pointer and an error. -/
structure PodListResult where
  list : Option (List Pod)
  err : Option Err
deriving DecidableEq, Repr

/-! ## The root cluster -/

/-- A request to the node API of the root cluster. -/
inductive Action where
  | get (name : GoString)
  | create (node : Node)
  | updateStatus (node : Node)
  | patch (name : GoString) (taints : List Taint)
deriving DecidableEq, Repr

/-- A failure of a request to the root API that does not come from the
store. -/
inductive Fault where
  | Conflict
  | ServiceUnavailable
deriving DecidableEq, Repr

/-- The error of a fault. -/
def Fault.toErr : Fault → Err
  | Fault.Conflict => Err.status StatusReason.Conflict
  | Fault.ServiceUnavailable => Err.status StatusReason.ServiceUnavailable

/-- The root cluster: the stored nodes (a node is found under its name; the
first one of a name is the one stored) and the requests made so far. -/
structure World where
  nodes : List Node := []
  actions : List Action := []
deriving DecidableEq, Repr

/-- The constants of the package and of `pkg/utils` the handler names. -/
structure Consts where
  KosmosNodePrefix : GoString
  nodeMode : GoString
  KosmosNodeOwnedByClusterAnnotations : GoString
  KosmosNodeTaintKey : GoString
  KosmosNodeTaintValue : GoString
  KosmosNodeTaintEffect : GoString
  LabelNodeRoleControlPlane : GoString

/-- What the handler reads and does not own: the constants, the answers of
the leaf cluster, the requests the root API refuses, and the helpers of the
repository that are called here and defined elsewhere. -/
structure Env where
  k : Consts
  /-- The requests the root API fails (a rejected object, an unavailable
  server, a conflict), and with what. -/
  rootFault : Action → Option Fault
  /-- The answer of `LeafClientset.CoreV1().Nodes().List`. -/
  leafListNodes : ListOptions → NodeListResult
  /-- The answer of `LeafClientset.CoreV1().Pods(metav1.NamespaceAll).List`. -/
  leafListPods : ListOptions → PodListResult
  /-- The status code of the request to `/readyz` of the leaf. -/
  readyzStatus : Int
  /-- The fields of the node template of `utils.BuildNodeTemplate`. -/
  template : GoString → Node
  /-- The helper `metav1.FormatLabelSelector`. -/
  FormatLabelSelector : Option LabelSelector → GoString
  /-- The helper `GetAddress`, given the nodes of the root. -/
  GetAddress : List Node → List NodeAddress → Except Err (List NodeAddress)
  /-- The method `clusterConditionCache.thresholdAdjustedReadyCondition`. -/
  thresholdAdjustedReadyCondition : Cluster → Node → List NodeCondition → List NodeCondition
  /-- The helper `FindStatusCondition`. -/
  FindStatusCondition : List NodeCondition → NodeCondition
  /-- The helper `utils.CalculateClusterResources`. -/
  CalculateClusterResources : List Node → Option (List Pod) → ResourceList
  /-- The helper `utils.NodeConditions`. -/
  NodeConditions : List NodeCondition

/-- The stored node of a name. -/
def findNode (nodes : List Node) (name : GoString) : Option Node :=
  nodes.find? (fun n => decide (n.Name = name))

/-- The request `RootClientset.CoreV1().Nodes().Get(name)`. -/
def rootGet (e : Env) (name : GoString) (w : World) : Except Err Node × World :=
  let w1 : World := { w with actions := w.actions ++ [Action.get name] }
  match e.rootFault (Action.get name) with
  | some f => (Except.error f.toErr, w1)
  | none =>
    match findNode w.nodes name with
    | some n => (Except.ok n, w1)
    | none => (Except.error (Err.status StatusReason.NotFound), w1)

/-- The request `RootClientset.CoreV1().Nodes().Create(node)`: answers with
the stored node. -/
def rootCreate (e : Env) (node : Node) (w : World) : Except Err Node × World :=
  let w1 : World := { w with actions := w.actions ++ [Action.create node] }
  match e.rootFault (Action.create node) with
  | some f => (Except.error f.toErr, w1)
  | none =>
    match findNode w.nodes node.Name with
    | some _ => (Except.error (Err.status StatusReason.AlreadyExists), w1)
    | none => (Except.ok node, { w1 with nodes := w.nodes ++ [node] })

/-! ## The materializer -/

/-- Modelled from the spec: `utils.BuildNodeTemplate` is not among the
sources. The spec (4.5, 6) has the node constructed "from a fixed template"
under the chosen name: the name is the argument, every other field is the
template of the environment. -/
def BuildNodeTemplate (e : Env) (name : GoString) : Node :=
  { e.template name with Name := name }

/-- Lines 238-254 of `createNode`: the node built from the template, with
its annotations, kubelet version and kubelet port. -/
def buildRootNode (e : Env) (clusterName nodeName gitVersion : GoString) (listenPort : Int)
    (leafModel : LeafMode) : Node :=
  let nodeInRoot := BuildNodeTemplate e nodeName
  let nodeAnnotations : List (GoString × GoString) :=
    match nodeInRoot.Annotations with
    | none => []
    | some m => m
  let nodeAnnotations :=
    if leafModel = LeafMode.ALL then mapSet nodeAnnotations e.k.nodeMode (str "one2cluster")
    else nodeAnnotations
  let nodeAnnotations :=
    mapSet nodeAnnotations e.k.KosmosNodeOwnedByClusterAnnotations clusterName
  { nodeInRoot with
    Annotations := some nodeAnnotations
    Status := { nodeInRoot.Status with
      KubeletVersion := gitVersion
      KubeletEndpointPort := listenPort } }

/-- The function `createNode` (lines 231-262): get, or build and create. -/
def createNode (e : Env) (clusterName nodeName gitVersion : GoString) (listenPort : Int)
    (leafModel : LeafMode) (w : World) : Except Err Node × World :=
  match rootGet e nodeName w with
  | (Except.ok nodeInRoot, w1) => (Except.ok nodeInRoot, w1)
  | (Except.error err, w1) =>
    if !IsNotFound err then
      (Except.error err, w1)
    else
      let nodeInRoot := buildRootNode e clusterName nodeName gitVersion listenPort leafModel
      match rootCreate e nodeInRoot w1 with
      | (Except.error err, w2) => (Except.error err, w2)
      | (Except.ok created, w2) => (Except.ok created, w2)

/-- The map from the name of a synthetic node to the selector behind it. -/
abbrev NodeSelectorMap := List (GoString × NodeSelector)

/-- The name `CreateRootNode` chooses for entry `i` of the leaf models
(lines 280-288): the node name of the selector in mode Node, otherwise the
formatted `prefix, LeafNodeName, "-", i`; cut to 63 bytes when longer. -/
def nodeNameOfLeafModel (e : Env) (mode : LeafMode) (i : Nat) (leafModel : LeafModel) : GoString :=
  let nodeNameInRoot :=
    if mode = LeafMode.Node then leafModel.NodeSelector.NodeName
    else e.k.KosmosNodePrefix ++ leafModel.LeafNodeName ++ str "-" ++ fmtInt i
  if nodeNameInRoot.length > 63 then nodeNameInRoot.take 63 else nodeNameInRoot

/-- The loop of `CreateRootNode` over the leaf models (lines 279-300), from
index `i`, with the nodes and selectors gathered so far. -/
def createRootNodeLoop (e : Env) (h : ClassificationHandler) (listenPort : Int)
    (gitVersion : GoString) :
    Nat → List LeafModel → List Node → NodeSelectorMap → World →
      Except Failure (List Node × NodeSelectorMap) × World
  | _, [], nodes, leafNodeSelectors, w => (Except.ok (nodes, leafNodeSelectors), w)
  | i, leafModel :: rest, nodes, leafNodeSelectors, w =>
    let nodeNameInRoot := nodeNameOfLeafModel e h.leafMode i leafModel
    match createNode e h.Cluster.Name nodeNameInRoot gitVersion listenPort h.leafMode w with
    | (Except.error err, w1) => (Except.error (Failure.error err), w1)
    | (Except.ok nodeInRoot, w1) =>
      if h.leafMode = LeafMode.Party then
        match nodeInRoot.Annotations with
        | none => (Except.error (Failure.panic GoPanic.assignmentToNilMap), w1)
        | some m =>
          let nodeInRoot : Node :=
            { nodeInRoot with Annotations := some (mapSet m e.k.nodeMode (str "one2party")) }
          createRootNodeLoop e h listenPort gitVersion (i + 1) rest (nodes ++ [nodeInRoot])
            (mapSet leafNodeSelectors nodeNameInRoot leafModel.NodeSelector) w1
      else
        createRootNodeLoop e h listenPort gitVersion (i + 1) rest (nodes ++ [nodeInRoot])
          (mapSet leafNodeSelectors nodeNameInRoot leafModel.NodeSelector) w1

/-- The leaf models a `range` runs over: none when the slice is nil. -/
def leafModelsOf (cluster : Cluster) : List LeafModel :=
  match cluster.LeafModels with
  | none => []
  | some l => l

/-- The method `CreateRootNode` (lines 265-304). -/
def CreateRootNode (e : Env) (h : ClassificationHandler) (listenPort : Int)
    (gitVersion : GoString) (w : World) :
    Except Failure (List Node × NodeSelectorMap) × World :=
  let cluster := h.Cluster
  if h.leafMode = LeafMode.ALL then
    let nodeNameInRoot := e.k.KosmosNodePrefix ++ cluster.Name
    match createNode e cluster.Name nodeNameInRoot gitVersion listenPort h.leafMode w with
    | (Except.error err, w1) => (Except.error (Failure.error err), w1)
    | (Except.ok nodeInRoot, w1) =>
      (Except.ok ([] ++ [nodeInRoot], mapSet [] nodeNameInRoot {}), w1)
  else
    createRootNodeLoop e h listenPort gitVersion 0 (leafModelsOf cluster) [] [] w

/-! ## The root API, continued -/

/-- The request `RootClientset.CoreV1().Nodes().UpdateStatus(node)`: the
status of the stored node of that name becomes the status of `node`. -/
def rootUpdateStatus (e : Env) (node : Node) (w : World) : Except Err Node × World :=
  let w1 : World := { w with actions := w.actions ++ [Action.updateStatus node] }
  match e.rootFault (Action.updateStatus node) with
  | some f => (Except.error f.toErr, w1)
  | none =>
    match findNode w.nodes node.Name with
    | none => (Except.error (Err.status StatusReason.NotFound), w1)
    | some stored =>
      (Except.ok { stored with Status := node.Status },
        { w1 with nodes := w.nodes.map (fun n =>
            if n.Name = node.Name then { n with Status := node.Status } else n) })

/-- The request `Nodes().Patch(nodeName, types.MergePatchType, patchJSON)`
where `patchJSON` is the JSON of a node that has only `Spec.Taints` set: the
field `taints` is `omitempty`, so a non-empty list replaces the taints of the
stored node and an empty one leaves them. -/
def rootPatchTaints (e : Env) (nodeName : GoString) (taints : List Taint) (w : World) :
    Except Err Node × World :=
  let w1 : World := { w with actions := w.actions ++ [Action.patch nodeName taints] }
  match e.rootFault (Action.patch nodeName taints) with
  | some f => (Except.error f.toErr, w1)
  | none =>
    match findNode w.nodes nodeName with
    | none => (Except.error (Err.status StatusReason.NotFound), w1)
    | some stored =>
      if taints = [] then (Except.ok stored, w1)
      else
        (Except.ok { stored with Taints := taints },
          { w1 with nodes := w.nodes.map (fun n =>
              if n.Name = nodeName then { n with Taints := taints } else n) })

/-! ## The leaf query layer -/

/-- The method `GetLeafNodes` (lines 57-73). -/
def GetLeafNodes (e : Env) (h : ClassificationHandler) (rootNode : Node) (selector : NodeSelector) :
    Except Err (Option (List Node)) :=
  let listOption : ListOptions := {}
  let listOption :=
    if h.leafMode = LeafMode.Party then
      { listOption with LabelSelector := e.FormatLabelSelector selector.LabelSelector }
    else listOption
  let listOption :=
    if h.leafMode = LeafMode.Node then
      { listOption with FieldSelector := str "metadata.name=" ++ rootNode.Name }
    else listOption
  let r := e.leafListNodes listOption
  match r.err with
  | some err => Except.error err
  | none => Except.ok r.list

/-- The loop of `GetLeafPods` over the leaf nodes (lines 93-105), with the
pod list gathered so far (nil at first). -/
def leafPodsOfNodes (e : Env) : List Node → Option (List Pod) → Except Failure (Option (List Pod))
  | [], pods => Except.ok pods
  | node :: rest, pods =>
    let r := e.leafListPods { FieldSelector := str "spec.nodeName=" ++ node.Name }
    match r.err with
    | some err => Except.error (Failure.error err)
    | none =>
      match pods with
      | none => leafPodsOfNodes e rest r.list
      | some items =>
        match r.list with
        | none => Except.error (Failure.panic GoPanic.nilPointerDereference)
        | some more => leafPodsOfNodes e rest (some (items ++ more))

/-- The method `GetLeafPods` (lines 75-108). -/
def GetLeafPods (e : Env) (h : ClassificationHandler) (rootNode : Node) (selector : NodeSelector) :
    Except Failure (Option (List Pod)) :=
  if h.leafMode = LeafMode.Party then
    let r := e.leafListPods {}
    match r.err with
    | some err => Except.error (Failure.error err)
    | none => Except.ok r.list
  else if h.leafMode = LeafMode.Node then
    let r := e.leafListPods { FieldSelector := str "spec.nodeName=" ++ rootNode.Name }
    match r.err with
    | some err => Except.error (Failure.error err)
    | none => Except.ok r.list
  else
    match GetLeafNodes e h rootNode selector with
    | Except.error err => Except.error (Failure.error err)
    | Except.ok none => Except.error (Failure.panic GoPanic.nilPointerDereference)
    | Except.ok (some items) => leafPodsOfNodes e items none

/-! ## Health -/

/-- The method `getClusterHealthStatus` (lines 328-340): online when the
status of `/readyz` is 200. -/
def getClusterHealthStatus (e : Env) : Bool :=
  if e.readyzStatus ≠ 200 then false else true

/-- The function `getObservedReadyStatus` (lines 342-362). -/
def getObservedReadyStatus (online : Bool) : List NodeCondition :=
  if !online then
    [{ Type_ := str "Ready", Status := str "False", Reason := str "ClusterNotReachable",
       Message := str "cluster is not reachable." }]
  else
    [{ Type_ := str "Ready", Status := str "True", Reason := str "ClusterReady",
       Message := str "cluster is online and ready to accept workloads." }]

/-- The condition `checkAllMasterNodesNotReady` returns when no master node
is ready (lines 383-390). -/
def leafNodesNotReadyCondition : NodeCondition :=
  { Type_ := str "Ready", Status := str "False", Reason := str "LeafNodesNotReady",
    Message := str "All leaf cluster‘s master nodes are not ready." }

/-- The inner loop of lines 371-377: some condition of the node has type
Ready and status True. -/
def masterNodeReady (node : Node) : Bool :=
  node.Status.Conditions.any (fun condition =>
    decide (condition.Type_ = str "Ready") && decide (condition.Status = str "True"))

/-- The outer loop of lines 369-381: starts from true and is cleared by every
ready node. -/
def allMasterNotReady : List Node → Bool → Bool
  | [], acc => acc
  | node :: rest, acc => allMasterNotReady rest (if masterNodeReady node then false else acc)

/-- The method `checkAllMasterNodesNotReady` (lines 363-393). An error of
the list call is logged and nothing else; `nodes.Items` is then read through
the returned pointer. -/
def checkAllMasterNodesNotReady (e : Env) : Except GoPanic (List NodeCondition) :=
  let r := e.leafListNodes { LabelSelector := e.k.LabelNodeRoleControlPlane }
  match r.list with
  | none => Except.error GoPanic.nilPointerDereference
  | some items =>
    if allMasterNotReady items true then Except.ok [leafNodesNotReadyCondition]
    else Except.ok e.NodeConditions

/-! ## The status reconciler -/

/-- The taint every synthetic node of mode Node gets (lines 149-153). -/
def syntheticTaint (e : Env) : Taint :=
  { Key := e.k.KosmosNodeTaintKey, Value := e.k.KosmosNodeTaintValue,
    Effect := e.k.KosmosNodeTaintEffect }

/-- The function `updateTaints` (lines 214-229); `json.Marshal` of a node
does not fail. -/
def updateTaints (e : Env) (taints : List Taint) (nodeName : GoString) (w : World) :
    Option Err × World :=
  match rootPatchTaints e nodeName taints w with
  | (Except.error err, w1) => (some err, w1)
  | (Except.ok _, w1) => (none, w1)

/-- Lines 188-205 of the closure: translate the addresses of the first leaf
node, write the status, and in mode Node patch the taints. -/
def writeStatus (e : Env) (h : ClassificationHandler) (rootCopy : Node) (leafNode0 : Node)
    (nodeInLeafTaints : List Taint) (w : World) : Except Failure Unit × World :=
  match e.GetAddress w.nodes leafNode0.Status.Addresses with
  | Except.error err => (Except.error (Failure.error err), w)
  | Except.ok updateAddress =>
    let rootCopy : Node := { rootCopy with Status := { rootCopy.Status with Addresses := updateAddress } }
    match rootUpdateStatus e rootCopy w with
    | (Except.error err, w1) => (Except.error (Failure.error err), w1)
    | (Except.ok _, w1) =>
      if h.leafMode = LeafMode.Node then
        match updateTaints e nodeInLeafTaints rootCopy.Name w1 with
        | (some err, w2) =>
          (Except.error (Failure.error (Err.errorf (str "update taints failed: ") err)), w2)
        | (none, w2) => (Except.ok (), w2)
      else
        (Except.ok (), w1)

/-- Lines 155-186 of the closure, the modes ALL and Party: the conditions
from the health of the leaf, the resources from its nodes and pods; then
lines 188-205. -/
def updateClusterStatus (e : Env) (h : ClassificationHandler) (nodeNameInRoot : GoString)
    (leafNodeSelector : NodeSelectorMap) (nodeInRoot rootCopy : Node) (leafNode0 : Node)
    (leafNodes : List Node) (w : World) : Except Failure Unit × World :=
  let online := getClusterHealthStatus e
  let observedReadyConditons := getObservedReadyStatus online
  let readyConditions := e.thresholdAdjustedReadyCondition h.Cluster nodeInRoot observedReadyConditons
  let readyCondition := e.FindStatusCondition readyConditions
  if !online && readyCondition.Status != str "True" then
    let rootCopy : Node := { rootCopy with Status := { rootCopy.Status with Conditions := readyConditions } }
    match e.GetAddress w.nodes leafNode0.Status.Addresses with
    | Except.error err => (Except.error (Failure.error err), w)
    | Except.ok updateAddress =>
      let rootCopy : Node := { rootCopy with Status := { rootCopy.Status with Addresses := updateAddress } }
      match rootUpdateStatus e rootCopy w with
      | (Except.error err, w1) => (Except.error (Failure.error err), w1)
      | (Except.ok _, w1) => (Except.ok (), w1)
  else
    let conditions : Except GoPanic (List NodeCondition) :=
      if online && readyCondition.Status == str "True" then checkAllMasterNodesNotReady e
      else Except.ok readyConditions
    match conditions with
    | Except.error p => (Except.error (Failure.panic p), w)
    | Except.ok conditions =>
      let rootCopy : Node := { rootCopy with Status := { rootCopy.Status with Conditions := conditions } }
      let selector : NodeSelector :=
        match mapGet leafNodeSelector nodeNameInRoot with
        | some s => s
        | none => {}
      match GetLeafPods e h rootCopy selector with
      | Except.error (Failure.panic p) => (Except.error (Failure.panic p), w)
      | Except.error (Failure.error err) =>
        (Except.error (Failure.error (Err.errorf
          (str "could not list pod in leaf cluster while update the join node " ++ nodeNameInRoot ++
            str " status, err: ") err)), w)
      | Except.ok pods =>
        let clusterResources := e.CalculateClusterResources leafNodes pods
        let rootCopy : Node :=
          { rootCopy with Status := { rootCopy.Status with
              Allocatable := clusterResources, Capacity := clusterResources } }
        writeStatus e h rootCopy leafNode0 [] w

/-- The closure handed to `retry.RetryOnConflict` (lines 127-206): one
attempt to update the status of the root node `nodeNameInRoot`. -/
def updateNodeOnce (e : Env) (h : ClassificationHandler) (nodeNameInRoot : GoString)
    (listOptions : ListOptions) (leafNodeSelector : NodeSelectorMap) (w : World) :
    Except Failure Unit × World :=
  match rootGet e nodeNameInRoot w with
  | (Except.error err, w1) =>
    (Except.error (Failure.error (Err.errorf
      (str "cannot get node in root cluster while update the join node status " ++ nodeNameInRoot ++
        str ", err: ") err)), w1)
  | (Except.ok nodeInRoot, w1) =>
    let r := e.leafListNodes listOptions
    match r.err with
    | some err =>
      (Except.error (Failure.error (Err.errorf
        (str "cannot get node in leaf cluster while update the join node " ++ nodeNameInRoot ++
          str " status, err: ") err)), w1)
    | none =>
      match r.list with
      | none => (Except.error (Failure.panic GoPanic.nilPointerDereference), w1)
      | some [] =>
        (Except.error (Failure.error (Err.errorText
          (str "have no node in leaf cluster while update the join node " ++ nodeNameInRoot ++
            str " status"))), w1)
      | some (leafNode0 :: leafRest) =>
        let rootCopy := nodeInRoot
        if h.leafMode = LeafMode.Node then
          let rootCopy : Node := { rootCopy with Status := leafNode0.Status }
          let nodeInLeafTaints := leafNode0.Taints ++ [syntheticTaint e]
          writeStatus e h rootCopy leafNode0 nodeInLeafTaints w1
        else
          updateClusterStatus e h nodeNameInRoot leafNodeSelector nodeInRoot rootCopy leafNode0
            (leafNode0 :: leafRest) w1

/-- The loop of `retry.OnError` under `wait.ExponentialBackoff`: `fn` runs
at most `steps` times, again only after a conflict; when the steps run out
the last conflict is the error. -/
def retryLoop (fn : World → Except Failure Unit × World) :
    Nat → Option Err → World → Except Failure Unit × World
  | 0, lastErr, w =>
    match lastErr with
    | none => (Except.ok (), w)
    | some err => (Except.error (Failure.error err), w)
  | steps + 1, _, w =>
    match fn w with
    | (Except.ok _, w1) => (Except.ok (), w1)
    | (Except.error (Failure.panic p), w1) => (Except.error (Failure.panic p), w1)
    | (Except.error (Failure.error err), w1) =>
      if IsConflict err then retryLoop fn steps (some err) w1
      else (Except.error (Failure.error err), w1)

/-- The call `retry.RetryOnConflict(retry.DefaultRetry, fn)`; the default
retry has 5 steps. -/
def RetryOnConflict (fn : World → Except Failure Unit × World) (w : World) :
    Except Failure Unit × World :=
  retryLoop fn 5 none w

/-- The list options of lines 115-125 for a root node, or none where the
loop goes on to the next node (mode Party, no selector under the name). -/
def listOptionsOf (e : Env) (h : ClassificationHandler) (leafNodeSelector : NodeSelectorMap)
    (nodeNameInRoot : GoString) : Option ListOptions :=
  let listOptions : ListOptions := {}
  if h.leafMode = LeafMode.Party then
    match mapGet leafNodeSelector nodeNameInRoot with
    | none => none
    | some selector =>
      some { listOptions with LabelSelector := e.FormatLabelSelector selector.LabelSelector }
  else if h.leafMode = LeafMode.Node then
    some { listOptions with FieldSelector := str "metadata.name=" ++ nodeNameInRoot }
  else
    some listOptions

/-- How the body of the loop of `UpdateRootNodeStatus` ends for one root
node, when it does not panic. -/
inductive NodeOutcome where
  /-- The `continue` of line 120: no request is made and no error is kept. -/
  | skipped
  /-- The retried closure returned nil. -/
  | updated
  /-- The retried closure returned an error, which line 208 appends. -/
  | failed (err : Err)
deriving DecidableEq, Repr

/-- The body of the loop of `UpdateRootNodeStatus` for one root node (lines
114-209). -/
def updateRootNode (e : Env) (h : ClassificationHandler) (leafNodeSelector : NodeSelectorMap)
    (node : Node) (w : World) : Except GoPanic NodeOutcome × World :=
  let nodeNameInRoot := node.Name
  match listOptionsOf e h leafNodeSelector nodeNameInRoot with
  | none => (Except.ok NodeOutcome.skipped, w)
  | some listOptions =>
    match RetryOnConflict (updateNodeOnce e h nodeNameInRoot listOptions leafNodeSelector) w with
    | (Except.error (Failure.panic p), w1) => (Except.error p, w1)
    | (Except.error (Failure.error err), w1) => (Except.ok (NodeOutcome.failed err), w1)
    | (Except.ok _, w1) => (Except.ok NodeOutcome.updated, w1)

/-- The loop of `UpdateRootNodeStatus` over the root nodes (lines 113-210),
with the errors gathered so far. -/
def updateRootNodeStatusLoop (e : Env) (h : ClassificationHandler)
    (leafNodeSelector : NodeSelectorMap) :
    List Node → List Err → World → Except GoPanic (List Err) × World
  | [], errors, w => (Except.ok errors, w)
  | node :: rest, errors, w =>
    match updateRootNode e h leafNodeSelector node w with
    | (Except.error p, w1) => (Except.error p, w1)
    | (Except.ok (NodeOutcome.failed err), w1) =>
      updateRootNodeStatusLoop e h leafNodeSelector rest (errors ++ [err]) w1
    | (Except.ok _, w1) => updateRootNodeStatusLoop e h leafNodeSelector rest errors w1

/-- The function `utilerrors.NewAggregate`: nil for an empty list, otherwise
the aggregate of the errors of the list. -/
def NewAggregate (errlist : List Err) : Option (List Err) :=
  if errlist.length = 0 then none else some errlist

/-- The method `UpdateRootNodeStatus` (lines 110-212). -/
def UpdateRootNodeStatus (e : Env) (h : ClassificationHandler) (nodesInRoot : List Node)
    (leafNodeSelector : NodeSelectorMap) (w : World) : Except GoPanic (Option (List Err)) × World :=
  match updateRootNodeStatusLoop e h leafNodeSelector nodesInRoot [] w with
  | (Except.error p, w1) => (Except.error p, w1)
  | (Except.ok errors, w1) => (Except.ok (NewAggregate errors), w1)

/-! ## A sample environment -/

/-- Sample values of the constants (the sources name them and do not define
them). -/
def sampleConsts : Consts :=
  { KosmosNodePrefix := str "kosmos-"
    nodeMode := str "kosmos.io/node-mode"
    KosmosNodeOwnedByClusterAnnotations := str "kosmos.io/owned-by-cluster"
    KosmosNodeTaintKey := str "kosmos.io/node"
    KosmosNodeTaintValue := str "true"
    KosmosNodeTaintEffect := str "NoSchedule"
    LabelNodeRoleControlPlane := str "node-role.kubernetes.io/control-plane" }

/-- A sample healthy condition set. -/
def sampleNodeConditions : List NodeCondition :=
  [{ Type_ := str "Ready", Status := str "True", Reason := str "KubeletReady",
     Message := str "kubelet is posting ready status" }]

/-- A sample environment: a root API without faults, a leaf without nodes
and pods that answers 200, helpers that keep what they are given. -/
def sampleEnv : Env :=
  { k := sampleConsts
    rootFault := fun _ => none
    leafListNodes := fun _ => { list := some [], err := none }
    leafListPods := fun _ => { list := some [], err := none }
    readyzStatus := 200
    template := fun name => { Name := name }
    FormatLabelSelector := fun _ => []
    GetAddress := fun _ addresses => Except.ok addresses
    thresholdAdjustedReadyCondition := fun _ _ observed => observed
    FindStatusCondition := fun conditions =>
      match conditions.find? (fun c => decide (c.Type_ = str "Ready")) with
      | some c => c
      | none => {}
    CalculateClusterResources := fun _ _ => []
    NodeConditions := sampleNodeConditions }

/-! ## Scenarios and notions of the statements -/

/-- A leaf whose list call for the master nodes fails with an empty list. -/
def failedListEnv : Env :=
  { sampleEnv with
    leafListNodes := fun _ =>
      { list := some [], err := some (Err.status StatusReason.ServiceUnavailable) } }

/-- A leaf whose list call for the master nodes fails with no list. -/
def failedListNilEnv : Env :=
  { sampleEnv with
    leafListNodes := fun _ =>
      { list := none, err := some (Err.status StatusReason.ServiceUnavailable) } }

/-- A leaf with two master nodes, the second one ready. -/
def oneReadyMasterEnv : Env :=
  { sampleEnv with
    leafListNodes := fun _ =>
      { list := some
          [{ Name := str "master-0"
             Status := { Conditions := [{ Type_ := str "Ready", Status := str "False" }] } },
           { Name := str "master-1"
             Status := { Conditions := [{ Type_ := str "Ready", Status := str "True" }] } }]
        err := none } }

/-- The names `CreateRootNode` chooses for the leaf models from index `i` on
(lines 279-288), in the order of the loop. -/
def chosenNamesFrom (e : Env) (mode : LeafMode) : Nat → List LeafModel → List GoString
  | _, [] => []
  | i, leafModel :: rest =>
    nodeNameOfLeafModel e mode i leafModel :: chosenNamesFrom e mode (i + 1) rest

/-- The names `CreateRootNode` passes to `createNode`: line 271 in mode ALL,
lines 279-288 otherwise. -/
def syntheticNodeNames (e : Env) (h : ClassificationHandler) : List GoString :=
  if h.leafMode = LeafMode.ALL then [e.k.KosmosNodePrefix ++ h.Cluster.Name]
  else chosenNamesFrom e h.leafMode 0 (leafModelsOf h.Cluster)

/-- The second store has every node of the first one under the same name. -/
def Agrees (a b : List Node) : Prop :=
  ∀ name n, findNode a name = some n → findNode b name = some n

/-- A cluster of mode ALL whose name has 64 bytes. -/
def longNameHandler : ClassificationHandler :=
  { leafMode := LeafMode.ALL, Cluster := { Name := List.replicate 64 97 } }

/-- A cluster of mode Node with two leaf models of one node name. -/
def repeatedNodeNameHandler : ClassificationHandler :=
  { leafMode := LeafMode.Node
    Cluster :=
      { Name := str "c2"
        LeafModels := some
          [{ LeafNodeName := str "a", NodeSelector := { NodeName := str "worker-7" } },
           { LeafNodeName := str "b", NodeSelector := { NodeName := str "worker-7" } }] } }

/-- A cluster of mode Party with the leaf models `gpu` and `cpu`. -/
def partyHandler : ClassificationHandler :=
  { leafMode := LeafMode.Party
    Cluster :=
      { Name := str "c3"
        LeafModels := some
          [{ LeafNodeName := str "gpu"
             NodeSelector :=
               { LabelSelector := some { MatchLabels := some [(str "tier", str "gpu")] } } },
           { LeafNodeName := str "cpu"
             NodeSelector :=
               { LabelSelector := some { MatchLabels := some [(str "tier", str "cpu")] } } }] } }

/-- The annotation of a node under a key, when it has one. -/
def annotationOf (n : Node) (key : GoString) : Option GoString :=
  match n.Annotations with
  | none => none
  | some m => mapGet m key

/-- The stored root node of a name has the taints of the first leaf node
listed under that name, followed by the synthetic taint. -/
def TaintsSynced (e : Env) (name : GoString) (nodes : List Node) : Prop :=
  ∃ leaf0 leafRest stored,
    (e.leafListNodes { FieldSelector := str "metadata.name=" ++ name }).list
        = some (leaf0 :: leafRest) ∧
      findNode nodes name = some stored ∧
      stored.Taints = leaf0.Taints ++ [syntheticTaint e]

/-- The requests of the second world are those of the first and more. -/
def Grows (w w1 : World) : Prop := ∃ more, w1.actions = w.actions ++ more

/-- The request `a` was made after the first world and up to the second. -/
def Requested (w w1 : World) (a : Action) : Prop :=
  ∃ before after, w1.actions = w.actions ++ before ++ a :: after

/-- The error of an outcome, when it is a failure. -/
def NodeOutcome.error? : NodeOutcome → Option Err
  | NodeOutcome.failed err => some err
  | _ => none

/-- The outcomes of the loop body for the root nodes in turn, each on the
world the one before left; ends at a panic. -/
def passOutcomes (e : Env) (h : ClassificationHandler) (leafNodeSelector : NodeSelectorMap) :
    List Node → World → List NodeOutcome
  | [], _ => []
  | node :: rest, w =>
    match updateRootNode e h leafNodeSelector node w with
    | (Except.error _, _) => []
    | (Except.ok outcome, w1) => outcome :: passOutcomes e h leafNodeSelector rest w1

/-- The number of errors of an aggregate; nil has none. -/
def aggregateCount (agg : Option (List Err)) : Nat :=
  match agg with
  | none => 0
  | some errs => errs.length

/-- Between the two worlds the taints of the root node of a name were
patched to those of the first leaf node listed under that name, followed by
the synthetic taint. -/
def TaintsPatched (e : Env) (name : GoString) (w w1 : World) : Prop :=
  ∃ leaf0 leafRest,
    (e.leafListNodes { FieldSelector := str "metadata.name=" ++ name }).list
        = some (leaf0 :: leafRest) ∧
      Requested w w1 (Action.patch name (leaf0.Taints ++ [syntheticTaint e]))

/-- The root node `kosmos-gpu-0` as `UpdateRootNodeStatus` is handed it. -/
def gpuRootNode : Node := { Name := str "kosmos-gpu-0" }

/-- The handler of mode ALL for the cluster of `partyHandler`. -/
def allHandler : ClassificationHandler := { partyHandler with leafMode := LeafMode.ALL }

/-- The leaf node `worker-7` with the taint foo=bar:NoSchedule. -/
def worker7Leaf : Node :=
  { Name := str "worker-7"
    Taints := [{ Key := str "foo", Value := str "bar", Effect := str "NoSchedule" }] }

/-- A leaf that lists `worker-7` under every selector. -/
def worker7Env : Env :=
  { sampleEnv with leafListNodes := fun _ => { list := some [worker7Leaf], err := none } }

/-- The handler of mode Node for a cluster with the leaf model `worker-7`. -/
def worker7Handler : ClassificationHandler :=
  { leafMode := LeafMode.Node
    Cluster :=
      { Name := str "c2"
        LeafModels := some [{ NodeSelector := { NodeName := str "worker-7" } }] } }

/-- A root store that has the synthetic node `worker-7`, without taints. -/
def worker7World : World := { nodes := [{ Name := str "worker-7" }] }

/-! ## The classifier: theorems -/

/-- C1 (code bug): on a cluster whose `LeafModels` slice is present with zero
entries, `NewLeafModelHandler` returns no mode: line 317 evaluates
`leafModels[0]` and panics with an index out of range. On a nil slice the
mode is ALL, and on a slice with an entry a handler is returned. -/
theorem NewLeafModelHandler_empty_slice_panics (name : GoString) :
    NewLeafModelHandler { Name := name, LeafModels := some [] }
        = Except.error GoPanic.indexOutOfRange ∧
      (NewLeafModelHandler { Name := name, LeafModels := none }).map
          ClassificationHandler.GetLeafMode = Except.ok LeafMode.ALL ∧
      ∀ (first : LeafModel) (rest : List LeafModel),
        ∃ h, NewLeafModelHandler { Name := name, LeafModels := some (first :: rest) }
          = Except.ok h := by
  refine ⟨rfl, rfl, ?_⟩
  intro first rest
  simp only [NewLeafModelHandler]
  split
  · split
    · exact ⟨_, rfl⟩
    · split <;> exact ⟨_, rfl⟩
  · exact ⟨_, rfl⟩

/-- C2 (code bug): whenever the first entry has a label selector pointer that
is not nil, the mode is Party, also when the label selector is the empty one
and `nodeName` is set (the claim says Node there): line 318 compares a
`*metav1.LabelSelector` with a `metav1.LabelSelector` value, which
`reflect.DeepEqual` never finds equal. With a nil label selector the mode is
Node for a non-empty `nodeName` and ALL otherwise. -/
theorem NewLeafModelHandler_present_label_selector_is_Party (name leafNodeName nodeName : GoString)
    (labelSelector : LabelSelector) (rest : List LeafModel) :
    (NewLeafModelHandler
        { Name := name
          LeafModels := some
            ({ LeafNodeName := leafNodeName
               NodeSelector := { NodeName := nodeName, LabelSelector := some labelSelector } }
              :: rest) }).map ClassificationHandler.GetLeafMode
      = Except.ok LeafMode.Party ∧
    (NewLeafModelHandler
        { Name := name
          LeafModels := some
            ({ LeafNodeName := leafNodeName
               NodeSelector := { NodeName := nodeName, LabelSelector := none } }
              :: rest) }).map ClassificationHandler.GetLeafMode
      = Except.ok (if nodeName ≠ [] then LeafMode.Node else LeafMode.ALL) := by
  constructor
  · simp [NewLeafModelHandler, reflectDeepEqual, labelSelectorPtrDeepEqual, Except.map,
      ClassificationHandler.GetLeafMode]
  · by_cases hname : nodeName = []
    · subst hname
      rfl
    · simp [NewLeafModelHandler, reflectDeepEqual, labelSelectorPtrDeepEqual, Except.map,
        ClassificationHandler.GetLeafMode, hname]

/-! ## The master node check: theorems -/

theorem allMasterNotReady_eq (items : List Node) (acc : Bool) :
    allMasterNotReady items acc = (acc && items.all (fun n => !masterNodeReady n)) := by
  induction items generalizing acc with
  | nil => simp [allMasterNotReady]
  | cons node rest ih =>
    simp only [allMasterNotReady, ih, List.all_cons]
    cases masterNodeReady node <;> cases acc <;> simp

theorem allMasterNotReady_true_iff (items : List Node) :
    allMasterNotReady items true = true ↔
      ∀ node ∈ items, ∀ c ∈ node.Status.Conditions,
        ¬ (c.Type_ = str "Ready" ∧ c.Status = str "True") := by
  rw [allMasterNotReady_eq]
  simp [masterNodeReady]

/-- C8 (counterexample): with a failing list call that carries an empty node
list the check returns Ready=False / LeafNodesNotReady, which is not the
healthy default condition set; with a failing call that carries no list it
panics on `nodes.Items`. -/
theorem checkAllMasterNodesNotReady_failed_list_not_healthy :
    checkAllMasterNodesNotReady failedListEnv = Except.ok [leafNodesNotReadyCondition] ∧
      checkAllMasterNodesNotReady failedListEnv ≠ Except.ok failedListEnv.NodeConditions ∧
      checkAllMasterNodesNotReady failedListNilEnv = Except.error GoPanic.nilPointerDereference := by
  refine ⟨rfl, ?_, rfl⟩
  intro hres
  have hcheck : checkAllMasterNodesNotReady failedListEnv
      = Except.ok [leafNodesNotReadyCondition] := rfl
  rw [hcheck] at hres
  have hlists : [leafNodesNotReadyCondition] = sampleNodeConditions := Except.ok.inj hres
  revert hlists
  decide

/-- C8 (amended): when the list call for the master nodes fails and the
client returns the empty node list with the error, the check does not fail
and returns the single condition Ready=False / LeafNodesNotReady. -/
theorem checkAllMasterNodesNotReady_failed_list (e : Env) (err : Err)
    (hlist : e.leafListNodes { LabelSelector := e.k.LabelNodeRoleControlPlane }
      = { list := some [], err := some err }) :
    checkAllMasterNodesNotReady e = Except.ok [leafNodesNotReadyCondition] := by
  simp [checkAllMasterNodesNotReady, hlist, allMasterNotReady]

/-- C8 (witness): the failing list call with an empty list. -/
theorem checkAllMasterNodesNotReady_failed_list_witness :
    checkAllMasterNodesNotReady failedListEnv = Except.ok [leafNodesNotReadyCondition] :=
  checkAllMasterNodesNotReady_failed_list failedListEnv
    (Err.status StatusReason.ServiceUnavailable) rfl

/-- C9: after a successful list call that returned `items`, the check
returns the single condition Ready=False / LeafNodesNotReady when no node of
`items` has a condition of type Ready with status True (so also for no
items), and the default healthy condition set otherwise; the healthy set not
being that single condition, it returns the condition if and only if no node
is ready. -/
theorem checkAllMasterNodesNotReady_spec (e : Env) (items : List Node)
    (hlist : e.leafListNodes { LabelSelector := e.k.LabelNodeRoleControlPlane }
      = { list := some items, err := none }) :
    ((∀ node ∈ items, ∀ c ∈ node.Status.Conditions,
          ¬ (c.Type_ = str "Ready" ∧ c.Status = str "True")) →
        checkAllMasterNodesNotReady e = Except.ok [leafNodesNotReadyCondition]) ∧
      (¬ (∀ node ∈ items, ∀ c ∈ node.Status.Conditions,
          ¬ (c.Type_ = str "Ready" ∧ c.Status = str "True")) →
        checkAllMasterNodesNotReady e = Except.ok e.NodeConditions) ∧
      (e.NodeConditions ≠ [leafNodesNotReadyCondition] →
        (checkAllMasterNodesNotReady e = Except.ok [leafNodesNotReadyCondition] ↔
          ∀ node ∈ items, ∀ c ∈ node.Status.Conditions,
            ¬ (c.Type_ = str "Ready" ∧ c.Status = str "True"))) := by
  have hcheck : checkAllMasterNodesNotReady e =
      if allMasterNotReady items true then Except.ok [leafNodesNotReadyCondition]
      else Except.ok e.NodeConditions := by
    simp [checkAllMasterNodesNotReady, hlist]
  refine ⟨?_, ?_, ?_⟩
  · intro hnone
    rw [hcheck, if_pos ((allMasterNotReady_true_iff items).mpr hnone)]
  · intro hsome
    rw [hcheck, if_neg (fun hall => hsome ((allMasterNotReady_true_iff items).mp hall))]
  · intro hne
    constructor
    · intro hres
      by_contra hsome
      rw [hcheck, if_neg (fun hall => hsome ((allMasterNotReady_true_iff items).mp hall))] at hres
      exact hne (Except.ok.inj hres)
    · intro hnone
      rw [hcheck, if_pos ((allMasterNotReady_true_iff items).mpr hnone)]

/-- C9 (witness): of two master nodes one is ready, so the check returns the
healthy condition set. -/
theorem checkAllMasterNodesNotReady_spec_witness :
    checkAllMasterNodesNotReady oneReadyMasterEnv = Except.ok sampleNodeConditions :=
  (checkAllMasterNodesNotReady_spec oneReadyMasterEnv _ rfl).2.1 (by decide)

/-! ## The materializer: lemmas -/

theorem findNode_name {nodes : List Node} {name : GoString} {n : Node}
    (hfind : findNode nodes name = some n) : n.Name = name := by
  have := List.find?_some hfind
  simpa using this

theorem findNode_append_single (nodes : List Node) (n : Node) (name : GoString) :
    findNode (nodes ++ [n]) name =
      match findNode nodes name with
      | some x => some x
      | none => if n.Name = name then some n else none := by
  unfold findNode
  rw [List.find?_append]
  cases hfind : List.find? (fun n => decide (n.Name = name)) nodes with
  | some x => simp
  | none =>
    by_cases hn : n.Name = name <;> simp [List.find?, hn]

theorem agrees_refl (a : List Node) : Agrees a a := fun _ _ hfind => hfind

theorem agrees_trans {a b c : List Node} (hab : Agrees a b) (hbc : Agrees b c) : Agrees a c :=
  fun name n hfind => hbc name n (hab name n hfind)

theorem agrees_append_single (a : List Node) (n : Node) : Agrees a (a ++ [n]) := by
  intro name x hfind
  rw [findNode_append_single, hfind]

theorem IsNotFound_fault (f : Fault) : IsNotFound f.toErr = false := by
  cases f <;> rfl

theorem buildRootNode_name (e : Env) (clusterName nodeName gitVersion : GoString)
    (listenPort : Int) (leafModel : LeafMode) :
    (buildRootNode e clusterName nodeName gitVersion listenPort leafModel).Name = nodeName := rfl

/-- The four ways `createNode` ends. -/
theorem createNode_eq (e : Env) (clusterName nodeName gitVersion : GoString) (listenPort : Int)
    (leafModel : LeafMode) (w : World) :
    createNode e clusterName nodeName gitVersion listenPort leafModel w =
      match e.rootFault (Action.get nodeName) with
      | some f => (Except.error f.toErr, { w with actions := w.actions ++ [Action.get nodeName] })
      | none =>
        match findNode w.nodes nodeName with
        | some n => (Except.ok n, { w with actions := w.actions ++ [Action.get nodeName] })
        | none =>
          match e.rootFault
              (Action.create (buildRootNode e clusterName nodeName gitVersion listenPort leafModel)) with
          | some f =>
            (Except.error f.toErr,
              { w with actions := w.actions ++ [Action.get nodeName] ++
                  [Action.create
                    (buildRootNode e clusterName nodeName gitVersion listenPort leafModel)] })
          | none =>
            (Except.ok (buildRootNode e clusterName nodeName gitVersion listenPort leafModel),
              { nodes := w.nodes ++
                  [buildRootNode e clusterName nodeName gitVersion listenPort leafModel]
                actions := w.actions ++ [Action.get nodeName] ++
                  [Action.create
                    (buildRootNode e clusterName nodeName gitVersion listenPort leafModel)] }) := by
  unfold createNode rootGet
  cases hg : e.rootFault (Action.get nodeName) with
  | some f => simp [IsNotFound_fault]
  | none =>
    cases hfind : findNode w.nodes nodeName with
    | some n => simp
    | none =>
      simp only [IsNotFound, Bool.not_true, Bool.false_eq_true, if_false]
      unfold rootCreate
      cases hc : e.rootFault
          (Action.create (buildRootNode e clusterName nodeName gitVersion listenPort leafModel)) with
      | some f => simp
      | none => simp [buildRootNode_name, hfind]

theorem createNode_agrees {e : Env} {clusterName nodeName gitVersion : GoString} {listenPort : Int}
    {leafModel : LeafMode} {w w1 : World} {r : Except Err Node}
    (hrun : createNode e clusterName nodeName gitVersion listenPort leafModel w = (r, w1)) :
    Agrees w.nodes w1.nodes := by
  rw [createNode_eq] at hrun
  split at hrun
  · cases hrun; exact agrees_refl _
  · split at hrun
    · cases hrun; exact agrees_refl _
    · split at hrun
      · cases hrun; exact agrees_refl _
      · cases hrun
        exact agrees_append_single _ _

theorem createNode_ok {e : Env} {clusterName nodeName gitVersion : GoString} {listenPort : Int}
    {leafModel : LeafMode} {w w1 : World} {n : Node}
    (hrun : createNode e clusterName nodeName gitVersion listenPort leafModel w = (Except.ok n, w1)) :
    e.rootFault (Action.get nodeName) = none ∧ findNode w1.nodes nodeName = some n := by
  rw [createNode_eq] at hrun
  split at hrun
  · cases hrun
  · rename_i hg
    refine ⟨hg, ?_⟩
    split at hrun
    · rename_i x hfind
      cases hrun
      exact hfind
    · rename_i hfind
      split at hrun
      · cases hrun
      · cases hrun
        simp only
        rw [findNode_append_single, hfind]
        simp [buildRootNode_name]

theorem createNode_found {e : Env} {nodeName : GoString} {u : World} {n : Node}
    (clusterName gitVersion : GoString) (listenPort : Int) (leafModel : LeafMode)
    (hg : e.rootFault (Action.get nodeName) = none) (hfind : findNode u.nodes nodeName = some n) :
    createNode e clusterName nodeName gitVersion listenPort leafModel u =
      (Except.ok n, { u with actions := u.actions ++ [Action.get nodeName] }) := by
  rw [createNode_eq, hg]
  simp only [hfind]

theorem createRootNodeLoop_agrees (e : Env) (h : ClassificationHandler) (listenPort : Int)
    (gitVersion : GoString) (models : List LeafModel) :
    ∀ (i : Nat) (nodes : List Node) (sels : NodeSelectorMap) (w w1 : World)
      (r : Except Failure (List Node × NodeSelectorMap)),
      createRootNodeLoop e h listenPort gitVersion i models nodes sels w = (r, w1) →
        Agrees w.nodes w1.nodes := by
  induction models with
  | nil =>
    intro i nodes sels w w1 r hrun
    simp only [createRootNodeLoop] at hrun
    cases hrun
    exact agrees_refl _
  | cons leafModel rest ih =>
    intro i nodes sels w w1 r hrun
    simp only [createRootNodeLoop] at hrun
    cases hc : createNode e h.Cluster.Name (nodeNameOfLeafModel e h.leafMode i leafModel)
        gitVersion listenPort h.leafMode w with
    | mk res wc =>
      have hstep := createNode_agrees hc
      rw [hc] at hrun
      cases res with
      | error err =>
        simp only at hrun
        cases hrun
        exact hstep
      | ok nodeInRoot =>
        simp only at hrun
        split at hrun
        · split at hrun
          · cases hrun
            exact hstep
          · exact agrees_trans hstep (ih _ _ _ _ _ _ hrun)
        · exact agrees_trans hstep (ih _ _ _ _ _ _ hrun)

/-- A second run of the loop on a store that has the nodes of the first run
gets every node, creates none and returns what the first run returned. -/
theorem createRootNodeLoop_replay (e : Env) (h : ClassificationHandler) (listenPort : Int)
    (gitVersion : GoString) (models : List LeafModel) :
    ∀ (i : Nat) (nodes : List Node) (sels : NodeSelectorMap) (w w1 : World)
      (res : List Node × NodeSelectorMap),
      createRootNodeLoop e h listenPort gitVersion i models nodes sels w = (Except.ok res, w1) →
      ∀ u : World, Agrees w1.nodes u.nodes →
        createRootNodeLoop e h listenPort gitVersion i models nodes sels u =
          (Except.ok res,
            { u with actions := u.actions ++ (chosenNamesFrom e h.leafMode i models).map Action.get }) := by
  induction models with
  | nil =>
    intro i nodes sels w w1 res hrun u _
    simp only [createRootNodeLoop] at hrun
    cases hrun
    simp [createRootNodeLoop, chosenNamesFrom]
  | cons leafModel rest ih =>
    intro i nodes sels w w1 res hrun u hagree
    simp only [createRootNodeLoop] at hrun
    cases hc : createNode e h.Cluster.Name (nodeNameOfLeafModel e h.leafMode i leafModel)
        gitVersion listenPort h.leafMode w with
    | mk r wc =>
      rw [hc] at hrun
      cases r with
      | error err =>
        simp only at hrun
        cases hrun
      | ok nodeInRoot =>
        obtain ⟨hg, hfind⟩ := createNode_ok hc
        simp only at hrun
        have hrest : ∀ {nodes' : List Node} {sels' : NodeSelectorMap},
            createRootNodeLoop e h listenPort gitVersion (i + 1) rest nodes' sels' wc
              = (Except.ok res, w1) → findNode u.nodes (nodeNameOfLeafModel e h.leafMode i leafModel)
                = some nodeInRoot := fun hr =>
          hagree _ _ (createRootNodeLoop_agrees e h listenPort gitVersion rest _ _ _ _ _ _ hr _ _ hfind)
        split at hrun
        · rename_i hparty
          split at hrun
          · cases hrun
          · rename_i m hann
            have hu := createNode_found h.Cluster.Name gitVersion listenPort h.leafMode hg (hrest hrun)
            simp only [createRootNodeLoop]
            rw [hu]
            simp only
            rw [if_pos hparty]
            simp only [hann]
            rw [ih _ _ _ _ _ _ hrun
              { u with actions := u.actions ++ [Action.get (nodeNameOfLeafModel e h.leafMode i leafModel)] }
              hagree]
            simp [chosenNamesFrom, List.append_assoc]
        · rename_i hparty
          have hu := createNode_found h.Cluster.Name gitVersion listenPort h.leafMode hg (hrest hrun)
          simp only [createRootNodeLoop]
          rw [hu]
          simp only
          rw [if_neg hparty]
          rw [ih _ _ _ _ _ _ hrun
            { u with actions := u.actions ++ [Action.get (nodeNameOfLeafModel e h.leafMode i leafModel)] }
            hagree]
          simp [chosenNamesFrom, List.append_assoc]

theorem mapKeys_mapSet {V : Type} (m : List (GoString × V)) (k : GoString) (v : V) :
    mapKeys (mapSet m k v) = if k ∈ mapKeys m then mapKeys m else mapKeys m ++ [k] := by
  induction m with
  | nil => simp [mapSet, mapKeys]
  | cons kv rest ih =>
    obtain ⟨k', v'⟩ := kv
    unfold mapKeys at ih ⊢
    by_cases hk : k' = k
    · subst hk
      simp [mapSet]
    · have hk' : ¬ k = k' := fun hEq => hk hEq.symm
      simp only [mapSet, if_neg hk, List.map_cons, ih, List.mem_cons, hk', false_or]
      split <;> simp

theorem mapKeys_mapSet_nodup {V : Type} (m : List (GoString × V)) (k : GoString) (v : V)
    (hnodup : (mapKeys m).Nodup) : (mapKeys (mapSet m k v)).Nodup := by
  rw [mapKeys_mapSet]
  split
  · exact hnodup
  · rename_i hk
    exact List.Nodup.append hnodup (List.nodup_singleton k) (by simpa using hk)

theorem mapKeys_mapSet_toFinset {V : Type} (m : List (GoString × V)) (k : GoString) (v : V) :
    (mapKeys (mapSet m k v)).toFinset = (mapKeys m).toFinset ∪ {k} := by
  rw [mapKeys_mapSet]
  split
  · rename_i hk
    ext x
    simp only [List.mem_toFinset, Finset.mem_union, Finset.mem_singleton]
    constructor
    · exact Or.inl
    · rintro (hx | hx)
      · exact hx
      · exact hx ▸ hk
  · ext x
    simp

/-- The keys of the selector map the loop returns: the keys it started with
and the chosen names, each once. -/
theorem createRootNodeLoop_keys (e : Env) (h : ClassificationHandler) (listenPort : Int)
    (gitVersion : GoString) (models : List LeafModel) :
    ∀ (i : Nat) (nodes : List Node) (sels : NodeSelectorMap) (w w1 : World)
      (res : List Node × NodeSelectorMap),
      createRootNodeLoop e h listenPort gitVersion i models nodes sels w = (Except.ok res, w1) →
      (mapKeys sels).Nodup →
        (mapKeys res.2).Nodup ∧
          (mapKeys res.2).toFinset =
            (mapKeys sels).toFinset ∪ (chosenNamesFrom e h.leafMode i models).toFinset := by
  induction models with
  | nil =>
    intro i nodes sels w w1 res hrun hnodup
    simp only [createRootNodeLoop] at hrun
    cases hrun
    simp [chosenNamesFrom, hnodup]
  | cons leafModel rest ih =>
    intro i nodes sels w w1 res hrun hnodup
    simp only [createRootNodeLoop] at hrun
    have hstep : ∀ {nodes' : List Node} {wc : World},
        createRootNodeLoop e h listenPort gitVersion (i + 1) rest nodes'
            (mapSet sels (nodeNameOfLeafModel e h.leafMode i leafModel) leafModel.NodeSelector) wc
          = (Except.ok res, w1) →
        (mapKeys res.2).Nodup ∧
          (mapKeys res.2).toFinset =
            (mapKeys sels).toFinset ∪
              (chosenNamesFrom e h.leafMode i (leafModel :: rest)).toFinset := by
      intro nodes' wc hr
      obtain ⟨hn, hk⟩ := ih _ _ _ _ _ _ hr (mapKeys_mapSet_nodup _ _ _ hnodup)
      refine ⟨hn, ?_⟩
      rw [hk, mapKeys_mapSet_toFinset]
      ext x
      simp only [chosenNamesFrom, Finset.mem_union, Finset.mem_singleton, List.mem_toFinset,
        List.mem_cons]
      tauto
    cases hc : createNode e h.Cluster.Name (nodeNameOfLeafModel e h.leafMode i leafModel)
        gitVersion listenPort h.leafMode w with
    | mk r wc =>
      rw [hc] at hrun
      cases r with
      | error err =>
        simp only at hrun
        cases hrun
      | ok nodeInRoot =>
        simp only at hrun
        split at hrun
        · split at hrun
          · cases hrun
          · exact hstep hrun
        · exact hstep hrun

theorem chosenNamesFrom_length (e : Env) (mode : LeafMode) (models : List LeafModel) :
    ∀ i : Nat, (chosenNamesFrom e mode i models).length = models.length := by
  induction models with
  | nil => intro i; rfl
  | cons leafModel rest ih => intro i; simp [chosenNamesFrom, ih]

/-- C4 (counterexample): in mode Node two leaf models with the node name
`worker-7` give a selector map of one entry, not of two. -/
theorem CreateRootNode_repeated_nodeName_one_entry :
    ∃ nodes sels w1,
      CreateRootNode sampleEnv repeatedNodeNameHandler 10250 (str "v1.21.5") {}
        = (Except.ok (nodes, sels), w1) ∧
      (leafModelsOf repeatedNodeNameHandler.Cluster).length = 2 ∧ sels.length = 1 :=
  ⟨_, _, _, rfl, rfl, rfl⟩

/-- C4 (amended): when `CreateRootNode` succeeds, the selector map has
exactly 1 entry in mode ALL; in the modes Party and Node it has one entry
for each distinct chosen node name (the names after the cut to 63 bytes), so
at most `len(LeafModels)` entries, and exactly `len(LeafModels)` entries
when the chosen names are pairwise distinct. -/
theorem CreateRootNode_selector_count (e : Env) (h : ClassificationHandler) (listenPort : Int)
    (gitVersion : GoString) (w w1 : World) (nodes : List Node) (sels : NodeSelectorMap)
    (hrun : CreateRootNode e h listenPort gitVersion w = (Except.ok (nodes, sels), w1)) :
    (h.leafMode = LeafMode.ALL → sels.length = 1) ∧
      (h.leafMode ≠ LeafMode.ALL →
        sels.length = (syntheticNodeNames e h).dedup.length ∧
          sels.length ≤ (leafModelsOf h.Cluster).length ∧
          ((syntheticNodeNames e h).Nodup → sels.length = (leafModelsOf h.Cluster).length)) := by
  constructor
  · intro hall
    simp only [CreateRootNode, if_pos hall] at hrun
    split at hrun
    · cases hrun
    · cases hrun
      rfl
  · intro hall
    simp only [CreateRootNode, if_neg hall] at hrun
    obtain ⟨hnodup, hkeys⟩ :=
      createRootNodeLoop_keys e h listenPort gitVersion _ _ _ _ _ _ _ hrun (by simp [mapKeys])
    simp only [mapKeys, List.map_nil, List.toFinset_nil, Finset.empty_union] at hkeys
    have hlen : sels.length = (syntheticNodeNames e h).dedup.length := by
      have h1 : sels.length = (mapKeys sels).length := by simp [mapKeys]
      rw [h1, ← List.toFinset_card_of_nodup hnodup, syntheticNodeNames, if_neg hall,
        ← List.card_toFinset]
      exact congrArg Finset.card hkeys
    have hnames : (syntheticNodeNames e h).length = (leafModelsOf h.Cluster).length := by
      rw [syntheticNodeNames, if_neg hall, chosenNamesFrom_length]
    refine ⟨hlen, ?_, ?_⟩
    · rw [hlen, ← hnames]
      exact (List.dedup_sublist _).length_le
    · intro hdistinct
      rw [hlen, hdistinct.dedup, hnames]

/-- C4 (witness): the two leaf models of the Party cluster give two
entries. -/
theorem CreateRootNode_selector_count_witness :
    ∃ nodes sels w1,
      CreateRootNode sampleEnv partyHandler 10250 (str "v1.21.5") {}
        = (Except.ok (nodes, sels), w1) ∧ sels.length = 2 :=
  ⟨_, _, _, rfl,
    ((CreateRootNode_selector_count sampleEnv partyHandler 10250 (str "v1.21.5") {} _ _ _ rfl).2
      (by decide)).2.2 (by decide)⟩

/-- C5: when `CreateRootNode` succeeds from a root store and is run again
with the same inputs on the resulting store, the second run returns the same
nodes (so the same node names) and the same selector map, its requests are
one Get for each chosen name and no Create, and the store stays as the first
run left it. -/
theorem CreateRootNode_idempotent (e : Env) (h : ClassificationHandler) (listenPort : Int)
    (gitVersion : GoString) (w w1 : World) (nodes : List Node) (sels : NodeSelectorMap)
    (hrun : CreateRootNode e h listenPort gitVersion w = (Except.ok (nodes, sels), w1)) :
    ∃ w2 : World,
      CreateRootNode e h listenPort gitVersion w1 = (Except.ok (nodes, sels), w2) ∧
        w2.nodes = w1.nodes ∧
        w2.actions = w1.actions ++ (syntheticNodeNames e h).map Action.get ∧
        ∀ a ∈ (syntheticNodeNames e h).map Action.get, ∀ node : Node, a ≠ Action.create node := by
  refine ⟨{ w1 with actions := w1.actions ++ (syntheticNodeNames e h).map Action.get },
    ?_, rfl, rfl, ?_⟩
  · by_cases hall : h.leafMode = LeafMode.ALL
    · simp only [CreateRootNode, if_pos hall] at hrun ⊢
      cases hc : createNode e h.Cluster.Name (e.k.KosmosNodePrefix ++ h.Cluster.Name) gitVersion
          listenPort h.leafMode w with
      | mk r wc =>
        rw [hc] at hrun
        cases r with
        | error err =>
          simp only at hrun
          cases hrun
        | ok nodeInRoot =>
          simp only at hrun
          cases hrun
          obtain ⟨hg, hfind⟩ := createNode_ok hc
          rw [createNode_found h.Cluster.Name gitVersion listenPort h.leafMode hg hfind]
          simp [syntheticNodeNames, hall]
    · simp only [CreateRootNode, if_neg hall] at hrun ⊢
      rw [createRootNodeLoop_replay e h listenPort gitVersion _ _ _ _ _ _ _ hrun w1 (agrees_refl _)]
      simp [syntheticNodeNames, hall]
  · intro a ha node hEq
    subst hEq
    simp at ha

/-- C5 (witness): two runs for the Party cluster from the empty store. -/
theorem CreateRootNode_idempotent_witness :
    ∃ w1 w2 : World, ∃ nodes sels,
      CreateRootNode sampleEnv partyHandler 10250 (str "v1.21.5") {}
        = (Except.ok (nodes, sels), w1) ∧
      CreateRootNode sampleEnv partyHandler 10250 (str "v1.21.5") w1
        = (Except.ok (nodes, sels), w2) ∧
      w2.nodes = w1.nodes ∧ nodes.map Node.Name = [str "kosmos-gpu-0", str "kosmos-cpu-1"] := by
  obtain ⟨w2, h2, hnodes, _, _⟩ :=
    CreateRootNode_idempotent sampleEnv partyHandler 10250 (str "v1.21.5") {} _ _ _ rfl
  exact ⟨_, w2, _, _, rfl, h2, hnodes, by decide⟩

theorem createNode_first_action (e : Env) (clusterName nodeName gitVersion : GoString)
    (listenPort : Int) (leafModel : LeafMode) (w : World) :
    ∃ more : List Action,
      (createNode e clusterName nodeName gitVersion listenPort leafModel w).2.actions
        = w.actions ++ Action.get nodeName :: more := by
  rw [createNode_eq]
  split
  · exact ⟨[], rfl⟩
  · split
    · exact ⟨[], rfl⟩
    · split
      · exact ⟨[Action.create
          (buildRootNode e clusterName nodeName gitVersion listenPort leafModel)], by simp⟩
      · exact ⟨[Action.create
          (buildRootNode e clusterName nodeName gitVersion listenPort leafModel)], by simp⟩

theorem CreateRootNode_ALL_world (e : Env) (h : ClassificationHandler) (listenPort : Int)
    (gitVersion : GoString) (w : World) (hall : h.leafMode = LeafMode.ALL) :
    (CreateRootNode e h listenPort gitVersion w).2 =
      (createNode e h.Cluster.Name (e.k.KosmosNodePrefix ++ h.Cluster.Name) gitVersion listenPort
        h.leafMode w).2 := by
  simp only [CreateRootNode, if_pos hall]
  split <;> simp_all

theorem nodeNameOfLeafModel_length (e : Env) (mode : LeafMode) (i : Nat) (leafModel : LeafModel) :
    (nodeNameOfLeafModel e mode i leafModel).length ≤ 63 := by
  have hcut : ∀ s : GoString, (if s.length > 63 then s.take 63 else s).length ≤ 63 := by
    intro s
    split
    · exact List.length_take_le _ _
    · omega
  exact hcut _

theorem chosenNamesFrom_length_le (e : Env) (mode : LeafMode) (models : List LeafModel) :
    ∀ i : Nat, ∀ name ∈ chosenNamesFrom e mode i models, name.length ≤ 63 := by
  induction models with
  | nil =>
    intro i name hname
    cases hname
  | cons leafModel rest ih =>
    intro i name hname
    rcases List.mem_cons.mp hname with hhead | hmem
    · rw [hhead]
      exact nodeNameOfLeafModel_length e mode i leafModel
    · exact ih (i + 1) name hmem

/-- C3 (code bug): in mode ALL the name is the prefix followed by the cluster
name, and is not cut: for a cluster name of 64 bytes the first request of
`CreateRootNode` is the Get of a name longer than 63 bytes, whatever the
environment, and with the sample environment that name is the key of the
returned selector map and the name of the created node. In the modes Party
and Node every chosen name has at most 63 bytes. -/
theorem CreateRootNode_ALL_name_not_cut (e : Env) (listenPort : Int) (gitVersion : GoString) :
    (CreateRootNode e longNameHandler listenPort gitVersion {}).2.actions.head?
        = some (Action.get (e.k.KosmosNodePrefix ++ List.replicate 64 97)) ∧
      63 < (e.k.KosmosNodePrefix ++ List.replicate 64 97).length ∧
      (CreateRootNode sampleEnv longNameHandler 10250 (str "v1.21.5") {}).1.map
          (fun res => (res.1.map (fun n => n.Name.length), (mapKeys res.2).map List.length))
        = Except.ok ([71], [71]) ∧
      ∀ (h : ClassificationHandler), h.leafMode ≠ LeafMode.ALL →
        ∀ name ∈ syntheticNodeNames e h, name.length ≤ 63 := by
  refine ⟨?_, ?_, rfl, ?_⟩
  · rw [CreateRootNode_ALL_world e longNameHandler listenPort gitVersion {} rfl]
    obtain ⟨more, hmore⟩ := createNode_first_action e longNameHandler.Cluster.Name
      (e.k.KosmosNodePrefix ++ longNameHandler.Cluster.Name) gitVersion listenPort
      longNameHandler.leafMode {}
    rw [hmore]
    rfl
  · simp
  · intro h hall name hname
    rw [syntheticNodeNames, if_neg hall] at hname
    exact chosenNamesFrom_length_le e h.leafMode _ 0 name hname

/-- C10 (code bug): in mode Party the nodes `CreateRootNode` creates are
stored with the owner annotation and without the node mode annotation; the
value `one2party` is set on the returned objects only (line 295, after the
Create of line 256). The node `createNode` builds and creates in mode Party
is the one it builds in mode Node. -/
theorem CreateRootNode_Party_stored_without_nodeMode :
    (CreateRootNode sampleEnv partyHandler 10250 (str "v1.21.5") {}).2.nodes.map
        (fun n => (n.Name, annotationOf n sampleConsts.KosmosNodeOwnedByClusterAnnotations,
          annotationOf n sampleConsts.nodeMode))
      = [(str "kosmos-gpu-0", some (str "c3"), none), (str "kosmos-cpu-1", some (str "c3"), none)] ∧
    (CreateRootNode sampleEnv partyHandler 10250 (str "v1.21.5") {}).1.map
        (fun res => res.1.map (fun n => (n.Name, annotationOf n sampleConsts.nodeMode)))
      = Except.ok [(str "kosmos-gpu-0", some (str "one2party")),
          (str "kosmos-cpu-1", some (str "one2party"))] ∧
    ∀ (e : Env) (clusterName nodeName gitVersion : GoString) (listenPort : Int),
      buildRootNode e clusterName nodeName gitVersion listenPort LeafMode.Party
        = buildRootNode e clusterName nodeName gitVersion listenPort LeafMode.Node := by
  exact ⟨by decide, rfl, fun _ _ _ _ _ => rfl⟩

/-! ## The status reconciler: lemmas -/

theorem grows_refl (w : World) : Grows w w := ⟨[], by simp⟩

theorem grows_trans {a b c : World} (hab : Grows a b) (hbc : Grows b c) : Grows a c := by
  obtain ⟨m1, h1⟩ := hab
  obtain ⟨m2, h2⟩ := hbc
  exact ⟨m1 ++ m2, by rw [h2, h1, List.append_assoc]⟩

theorem requested_of_grows_left {a b c : World} {x : Action} (hab : Grows a b)
    (hbc : Requested b c x) : Requested a c x := by
  obtain ⟨m1, h1⟩ := hab
  obtain ⟨before, after, h2⟩ := hbc
  exact ⟨m1 ++ before, after, by rw [h2, h1]; simp [List.append_assoc]⟩

theorem requested_of_grows_right {a b c : World} {x : Action} (hab : Requested a b x)
    (hbc : Grows b c) : Requested a c x := by
  obtain ⟨before, after, h1⟩ := hab
  obtain ⟨m2, h2⟩ := hbc
  exact ⟨before, after ++ m2, by rw [h2, h1]; simp [List.append_assoc]⟩

theorem findNode_map (f : Node → Node) (hf : ∀ n, (f n).Name = n.Name) (nodes : List Node)
    (name : GoString) : findNode (nodes.map f) name = (findNode nodes name).map f := by
  induction nodes with
  | nil => rfl
  | cons n rest ih =>
    unfold findNode at ih ⊢
    simp only [List.map_cons, List.find?_cons, hf]
    by_cases hn : n.Name = name
    · simp [hn]
    · simp [hn, ih]

theorem rootGet_world (e : Env) (name : GoString) (w : World) :
    (rootGet e name w).2 = { w with actions := w.actions ++ [Action.get name] } := by
  unfold rootGet
  split
  · rfl
  · split <;> rfl

theorem rootGet_ok {e : Env} {name : GoString} {w w1 : World} {n : Node}
    (hrun : rootGet e name w = (Except.ok n, w1)) : n.Name = name := by
  unfold rootGet at hrun
  split at hrun
  · cases hrun
  · split at hrun
    · rename_i x hfind
      cases hrun
      exact findNode_name hfind
    · cases hrun

theorem taintsSynced_map_status {e : Env} {name : GoString} {nodes : List Node}
    (hs : TaintsSynced e name nodes) (target : GoString) (status : NodeStatus) :
    TaintsSynced e name
      (nodes.map (fun n => if n.Name = target then { n with Status := status } else n)) := by
  obtain ⟨leaf0, leafRest, stored, hlist, hfind, htaints⟩ := hs
  refine ⟨leaf0, leafRest,
    (if stored.Name = target then { stored with Status := status } else stored), hlist, ?_, ?_⟩
  · rw [findNode_map _ (by intro n; split <;> rfl), hfind]
    rfl
  · split <;> exact htaints

theorem rootUpdateStatus_keeps (e : Env) (node : Node) (w : World) :
    Grows w (rootUpdateStatus e node w).2 ∧
      ∀ name, TaintsSynced e name w.nodes →
        TaintsSynced e name (rootUpdateStatus e node w).2.nodes := by
  unfold rootUpdateStatus
  split
  · exact ⟨⟨_, rfl⟩, fun _ hs => hs⟩
  · split
    · exact ⟨⟨_, rfl⟩, fun _ hs => hs⟩
    · exact ⟨⟨_, rfl⟩, fun _ hs => taintsSynced_map_status hs _ _⟩

theorem rootPatchTaints_keeps (e : Env) (nodeName : GoString) (taints : List Taint) (w : World)
    (hright : ∃ leaf0 leafRest,
      (e.leafListNodes { FieldSelector := str "metadata.name=" ++ nodeName }).list
          = some (leaf0 :: leafRest) ∧ taints = leaf0.Taints ++ [syntheticTaint e]) :
    (rootPatchTaints e nodeName taints w).2.actions = w.actions ++ [Action.patch nodeName taints] ∧
      (∀ name, TaintsSynced e name w.nodes →
        TaintsSynced e name (rootPatchTaints e nodeName taints w).2.nodes) ∧
      ∀ stored, (rootPatchTaints e nodeName taints w).1 = Except.ok stored →
        TaintsSynced e nodeName (rootPatchTaints e nodeName taints w).2.nodes := by
  obtain ⟨leaf0, leafRest, hlist, htaints⟩ := hright
  have hne : taints ≠ [] := by rw [htaints]; simp
  unfold rootPatchTaints
  split
  · exact ⟨rfl, fun _ hs => hs, fun _ hok => by cases hok⟩
  · split
    · exact ⟨rfl, fun _ hs => hs, fun _ hok => by cases hok⟩
    · rename_i stored hfind
      rw [if_neg hne]
      refine ⟨rfl, ?_, ?_⟩
      · intro name hs
        obtain ⟨l0, lRest, st, hl, hf, ht⟩ := hs
        refine ⟨l0, lRest,
          (if st.Name = nodeName then { st with Taints := taints } else st), hl, ?_, ?_⟩
        · simp only
          rw [findNode_map _ (by intro n; split <;> rfl), hf]
          rfl
        · split
          · rename_i hname
            have hEq : name = nodeName := (findNode_name hf).symm.trans hname
            subst hEq
            rw [hlist] at hl
            cases hl
            exact htaints
          · exact ht
      · intro _ _
        refine ⟨leaf0, leafRest,
          (if stored.Name = nodeName then { stored with Taints := taints } else stored),
          hlist, ?_, ?_⟩
        · simp only
          rw [findNode_map _ (by intro n; split <;> rfl), hfind]
          rfl
        · rw [if_pos (findNode_name hfind)]
          exact htaints

theorem rootPatchTaints_actions (e : Env) (nodeName : GoString) (taints : List Taint) (w : World) :
    (rootPatchTaints e nodeName taints w).2.actions
      = w.actions ++ [Action.patch nodeName taints] := by
  unfold rootPatchTaints
  split
  · rfl
  · split
    · rfl
    · split <;> rfl

theorem writeStatus_grows (e : Env) (h : ClassificationHandler) (rootCopy leaf0 : Node)
    (taints : List Taint) (w : World) :
    Grows w (writeStatus e h rootCopy leaf0 taints w).2 := by
  unfold writeStatus
  cases e.GetAddress w.nodes leaf0.Status.Addresses with
  | error err => exact grows_refl _
  | ok updateAddress =>
    simp only
    cases hU : rootUpdateStatus e
        { rootCopy with Status := { rootCopy.Status with Addresses := updateAddress } } w with
    | mk r1 w1 =>
      have hk := (rootUpdateStatus_keeps e
        { rootCopy with Status := { rootCopy.Status with Addresses := updateAddress } } w).1
      rw [hU] at hk
      cases r1 with
      | error err => exact hk
      | ok x =>
        simp only
        split
        · unfold updateTaints
          cases hP : rootPatchTaints e rootCopy.Name taints w1 with
          | mk r2 w2 =>
            have hp := rootPatchTaints_actions e rootCopy.Name taints w1
            rw [hP] at hp
            have hg : Grows w1 w2 := ⟨_, hp⟩
            cases r2 with
            | error err => exact grows_trans hk hg
            | ok y => exact grows_trans hk hg
        · exact hk

theorem writeStatus_node (e : Env) (h : ClassificationHandler) (rootCopy leaf0 : Node)
    (taints : List Taint) (w : World) (hmode : h.leafMode = LeafMode.Node)
    (hright : ∃ l0 lRest,
      (e.leafListNodes { FieldSelector := str "metadata.name=" ++ rootCopy.Name }).list
          = some (l0 :: lRest) ∧ taints = l0.Taints ++ [syntheticTaint e]) :
    (∀ name, TaintsSynced e name w.nodes →
        TaintsSynced e name (writeStatus e h rootCopy leaf0 taints w).2.nodes) ∧
      ((writeStatus e h rootCopy leaf0 taints w).1 = Except.ok () →
        TaintsSynced e rootCopy.Name (writeStatus e h rootCopy leaf0 taints w).2.nodes ∧
          Requested w (writeStatus e h rootCopy leaf0 taints w).2
            (Action.patch rootCopy.Name taints)) := by
  unfold writeStatus
  cases e.GetAddress w.nodes leaf0.Status.Addresses with
  | error err => exact ⟨fun _ hs => hs, fun hok => by cases hok⟩
  | ok updateAddress =>
    simp only
    cases hU : rootUpdateStatus e
        { rootCopy with Status := { rootCopy.Status with Addresses := updateAddress } } w with
    | mk r1 w1 =>
      have hk := rootUpdateStatus_keeps e
        { rootCopy with Status := { rootCopy.Status with Addresses := updateAddress } } w
      rw [hU] at hk
      cases r1 with
      | error err => exact ⟨hk.2, fun hok => by cases hok⟩
      | ok x =>
        simp only [hmode, if_true]
        unfold updateTaints
        cases hP : rootPatchTaints e rootCopy.Name taints w1 with
        | mk r2 w2 =>
          have hp := rootPatchTaints_keeps e rootCopy.Name taints w1 hright
          rw [hP] at hp
          cases r2 with
          | error err => exact ⟨fun name hs => hp.2.1 name (hk.2 name hs), fun hok => by cases hok⟩
          | ok y =>
            refine ⟨fun name hs => hp.2.1 name (hk.2 name hs), fun _ => ⟨hp.2.2 y rfl, ?_⟩⟩
            exact requested_of_grows_left hk.1 ⟨[], [], by simpa using hp.1⟩

theorem rootUpdateStatus_grows {e : Env} {node : Node} {w w1 : World} {r : Except Err Node}
    (hrun : rootUpdateStatus e node w = (r, w1)) : Grows w w1 := by
  have hk := (rootUpdateStatus_keeps e node w).1
  rw [hrun] at hk
  exact hk

theorem updateClusterStatus_grows (e : Env) (h : ClassificationHandler) (nodeNameInRoot : GoString)
    (sel : NodeSelectorMap) (nodeInRoot rootCopy leaf0 : Node) (leafNodes : List Node) (w : World) :
    Grows w (updateClusterStatus e h nodeNameInRoot sel nodeInRoot rootCopy leaf0 leafNodes w).2 := by
  unfold updateClusterStatus
  simp only
  split
  · split
    · exact grows_refl _
    · rename_i updateAddress _
      split
      · rename_i err w1 hU
        exact rootUpdateStatus_grows hU
      · rename_i x w1 hU
        exact rootUpdateStatus_grows hU
  · split
    · exact grows_refl _
    · split
      · exact grows_refl _
      · exact grows_refl _
      · exact writeStatus_grows _ _ _ _ _ _

theorem updateNodeOnce_first (e : Env) (h : ClassificationHandler) (name : GoString)
    (listOptions : ListOptions) (sel : NodeSelectorMap) (w : World) :
    ∃ more, (updateNodeOnce e h name listOptions sel w).2.actions
      = w.actions ++ Action.get name :: more := by
  unfold updateNodeOnce
  cases hG : rootGet e name w with
  | mk r w1 =>
    have hw := rootGet_world e name w
    rw [hG] at hw
    simp only at hw
    subst hw
    have hfrom : ∀ w2 : World,
        Grows { w with actions := w.actions ++ [Action.get name] } w2 →
          ∃ more, w2.actions = w.actions ++ Action.get name :: more := by
      rintro w2 ⟨more, hmore⟩
      exact ⟨more, by rw [hmore]; simp⟩
    cases r with
    | error err => exact ⟨[], rfl⟩
    | ok nodeInRoot =>
      simp only
      split
      · exact ⟨[], rfl⟩
      · split
        · exact ⟨[], rfl⟩
        · exact ⟨[], rfl⟩
        · split
          · exact hfrom _ (writeStatus_grows _ _ _ _ _ _)
          · exact hfrom _ (updateClusterStatus_grows _ _ _ _ _ _ _ _ _)

theorem updateNodeOnce_grows (e : Env) (h : ClassificationHandler) (name : GoString)
    (listOptions : ListOptions) (sel : NodeSelectorMap) (w : World) :
    Grows w (updateNodeOnce e h name listOptions sel w).2 := by
  obtain ⟨more, hmore⟩ := updateNodeOnce_first e h name listOptions sel w
  exact ⟨_, hmore⟩

theorem updateNodeOnce_node (e : Env) (h : ClassificationHandler) (name : GoString)
    (sel : NodeSelectorMap) (w : World) (hmode : h.leafMode = LeafMode.Node) :
    (∀ other, TaintsSynced e other w.nodes →
        TaintsSynced e other
          (updateNodeOnce e h name { FieldSelector := str "metadata.name=" ++ name } sel w).2.nodes) ∧
      ((updateNodeOnce e h name { FieldSelector := str "metadata.name=" ++ name } sel w).1
          = Except.ok () →
        TaintsSynced e name
            (updateNodeOnce e h name { FieldSelector := str "metadata.name=" ++ name } sel w).2.nodes ∧
          TaintsPatched e name w
            (updateNodeOnce e h name { FieldSelector := str "metadata.name=" ++ name } sel w).2) := by
  unfold updateNodeOnce
  cases hG : rootGet e name w with
  | mk r w1 =>
    have hw := rootGet_world e name w
    rw [hG] at hw
    simp only at hw
    cases r with
    | error err =>
      subst hw
      exact ⟨fun _ hs => hs, fun hok => by cases hok⟩
    | ok nodeInRoot =>
      have hname : nodeInRoot.Name = name := rootGet_ok hG
      subst hname
      have hg : Grows w w1 := ⟨[Action.get nodeInRoot.Name], by rw [hw]⟩
      have hnodes : w1.nodes = w.nodes := by rw [hw]
      simp only
      split
      · exact ⟨fun _ hs => hnodes ▸ hs, fun hok => by cases hok⟩
      · split
        · exact ⟨fun _ hs => hnodes ▸ hs, fun hok => by cases hok⟩
        · exact ⟨fun _ hs => hnodes ▸ hs, fun hok => by cases hok⟩
        · rename_i leaf0 leafRest hlist
          rw [if_pos hmode]
          have hright : ∃ l0 lRest,
              (e.leafListNodes
                { FieldSelector := str "metadata.name=" ++
                    ({ nodeInRoot with Status := leaf0.Status } : Node).Name }).list
                  = some (l0 :: lRest) ∧
                leaf0.Taints ++ [syntheticTaint e] = l0.Taints ++ [syntheticTaint e] :=
            ⟨leaf0, leafRest, hlist, rfl⟩
          have hws := writeStatus_node e h { nodeInRoot with Status := leaf0.Status } leaf0
            (leaf0.Taints ++ [syntheticTaint e]) w1 hmode hright
          refine ⟨fun other hs => hws.1 other (hnodes ▸ hs), fun hok => ?_⟩
          obtain ⟨hsync, hreq⟩ := hws.2 hok
          exact ⟨hsync, leaf0, leafRest, hlist, requested_of_grows_left hg hreq⟩

/-- What every attempt keeps, the retried call keeps. -/
theorem retryLoop_keeps (fn : World → Except Failure Unit × World) (Inv : World → World → Prop)
    (hrefl : ∀ w, Inv w w) (htrans : ∀ a b c, Inv a b → Inv b c → Inv a c)
    (hfn : ∀ w, Inv w (fn w).2) :
    ∀ (steps : Nat) (lastErr : Option Err) (w : World), Inv w (retryLoop fn steps lastErr w).2 := by
  intro steps
  induction steps with
  | zero =>
    intro lastErr w
    unfold retryLoop
    cases lastErr <;> exact hrefl w
  | succ n ih =>
    intro lastErr w
    unfold retryLoop
    have hstep := hfn w
    cases hF : fn w with
    | mk r w1 =>
      rw [hF] at hstep
      cases r with
      | ok x => exact hstep
      | error f =>
        cases f with
        | panic p => exact hstep
        | error err =>
          simp only
          split
          · exact htrans _ _ _ hstep (ih (some err) w1)
          · exact hstep

/-- What a successful attempt brings about, a successful retried call
brings about. -/
theorem retryLoop_ok (fn : World → Except Failure Unit × World) (Inv Good : World → World → Prop)
    (hfn : ∀ w, Inv w (fn w).2) (hgood : ∀ w, (fn w).1 = Except.ok () → Good w (fn w).2)
    (hleft : ∀ a b c, Inv a b → Good b c → Good a c) :
    ∀ (steps : Nat) (lastErr : Option Err) (w : World), (steps = 0 → lastErr ≠ none) →
      (retryLoop fn steps lastErr w).1 = Except.ok () → Good w (retryLoop fn steps lastErr w).2 := by
  intro steps
  induction steps with
  | zero =>
    intro lastErr w hlast hok
    cases lastErr with
    | none => exact absurd rfl (hlast rfl)
    | some err =>
      unfold retryLoop at hok
      cases hok
  | succ n ih =>
    intro lastErr w _ hok
    unfold retryLoop at hok ⊢
    have hstep := hfn w
    have hsucc := hgood w
    cases hF : fn w with
    | mk r w1 =>
      rw [hF] at hstep hsucc hok
      cases r with
      | ok x => exact hsucc rfl
      | error f =>
        cases f with
        | panic p => cases hok
        | error err =>
          simp only at hok ⊢
          split
          · rename_i hconflict
            rw [if_pos hconflict] at hok
            exact hleft _ _ _ hstep (ih (some err) w1 (fun _ => by simp) hok)
          · rename_i hconflict
            rw [if_neg hconflict] at hok
            cases hok

/-- The retried call makes the first request of its first attempt. -/
theorem retryLoop_first (fn : World → Except Failure Unit × World) (a : Action)
    (hfirst : ∀ w, ∃ more, (fn w).2.actions = w.actions ++ a :: more) :
    ∀ (steps : Nat) (lastErr : Option Err) (w : World),
      ∃ more, (retryLoop fn (steps + 1) lastErr w).2.actions = w.actions ++ a :: more := by
  intro steps lastErr w
  have hgrow : ∀ w, Grows w (fn w).2 := fun w => by
    obtain ⟨more, hmore⟩ := hfirst w
    exact ⟨_, hmore⟩
  unfold retryLoop
  obtain ⟨more, hmore⟩ := hfirst w
  cases hF : fn w with
  | mk r w1 =>
    rw [hF] at hmore
    cases r with
    | ok x => exact ⟨more, hmore⟩
    | error f =>
      cases f with
      | panic p => exact ⟨more, hmore⟩
      | error err =>
        simp only
        split
        · obtain ⟨more2, hmore2⟩ :=
            retryLoop_keeps fn Grows grows_refl (fun _ _ _ => grows_trans) hgrow steps (some err) w1
          exact ⟨more ++ more2, by rw [hmore2]; simp only at hmore; rw [hmore]; simp⟩
        · exact ⟨more, hmore⟩

theorem listOptionsOf_none_iff (e : Env) (h : ClassificationHandler) (sel : NodeSelectorMap)
    (name : GoString) :
    listOptionsOf e h sel name = none ↔ h.leafMode = LeafMode.Party ∧ mapGet sel name = none := by
  unfold listOptionsOf
  by_cases hparty : h.leafMode = LeafMode.Party
  · simp only [hparty, if_true, true_and]
    cases mapGet sel name <;> simp
  · simp only [hparty, if_false, false_and, iff_false]
    split <;> simp

theorem RetryOnConflict_first (e : Env) (h : ClassificationHandler) (name : GoString)
    (listOptions : ListOptions) (sel : NodeSelectorMap) (w : World) :
    ∃ more, (RetryOnConflict (updateNodeOnce e h name listOptions sel) w).2.actions
      = w.actions ++ Action.get name :: more :=
  retryLoop_first _ (Action.get name) (updateNodeOnce_first e h name listOptions sel) 4 none w

/-- The body of the loop for one node: it is skipped exactly in mode Party
without a selector under its name, and then nothing is requested; otherwise
the first request is the Get of the node. -/
theorem updateRootNode_spec {e : Env} {h : ClassificationHandler} {sel : NodeSelectorMap}
    {node : Node} {w w1 : World} {o : NodeOutcome}
    (hrun : updateRootNode e h sel node w = (Except.ok o, w1)) :
    (o = NodeOutcome.skipped ↔ h.leafMode = LeafMode.Party ∧ mapGet sel node.Name = none) ∧
      Grows w w1 ∧
      (¬ (h.leafMode = LeafMode.Party ∧ mapGet sel node.Name = none) →
        Requested w w1 (Action.get node.Name)) := by
  unfold updateRootNode at hrun
  simp only at hrun
  cases hopt : listOptionsOf e h sel node.Name with
  | none =>
    rw [hopt] at hrun
    simp only at hrun
    cases hrun
    have hskip := (listOptionsOf_none_iff e h sel node.Name).mp hopt
    exact ⟨⟨fun _ => hskip, fun _ => rfl⟩, grows_refl _, fun hn => absurd hskip hn⟩
  | some listOptions =>
    rw [hopt] at hrun
    simp only at hrun
    have hnot : ¬ (h.leafMode = LeafMode.Party ∧ mapGet sel node.Name = none) := fun hskip => by
      rw [(listOptionsOf_none_iff e h sel node.Name).mpr hskip] at hopt
      cases hopt
    obtain ⟨more, hmore⟩ := RetryOnConflict_first e h node.Name listOptions sel w
    have hreq : ∀ w2, w2 = (RetryOnConflict (updateNodeOnce e h node.Name listOptions sel) w).2 →
        Grows w w2 ∧ Requested w w2 (Action.get node.Name) := by
      intro w2 hw2
      subst hw2
      exact ⟨⟨_, hmore⟩, ⟨[], more, by simpa using hmore⟩⟩
    cases hR : RetryOnConflict (updateNodeOnce e h node.Name listOptions sel) w with
    | mk r w2 =>
      rw [hR] at hrun
      have hw2 := hreq w2 (by rw [hR])
      cases r with
      | ok x =>
        cases hrun
        exact ⟨⟨fun hEq => (by cases hEq), fun hskip => absurd hskip hnot⟩, hw2.1, fun _ => hw2.2⟩
      | error f =>
        cases f with
        | panic p => cases hrun
        | error err =>
          cases hrun
          exact ⟨⟨fun hEq => (by cases hEq), fun hskip => absurd hskip hnot⟩, hw2.1, fun _ => hw2.2⟩

theorem updateRootNodeStatusLoop_spec (e : Env) (h : ClassificationHandler)
    (sel : NodeSelectorMap) (nodes : List Node) :
    ∀ (errors : List Err) (w : World) (errors' : List Err) (w' : World),
      updateRootNodeStatusLoop e h sel nodes errors w = (Except.ok errors', w') →
        (passOutcomes e h sel nodes w).length = nodes.length ∧
          errors' = errors ++ (passOutcomes e h sel nodes w).filterMap NodeOutcome.error? ∧
          List.Forall₂
            (fun node o =>
              o = NodeOutcome.skipped ↔
                h.leafMode = LeafMode.Party ∧ mapGet sel node.Name = none)
            nodes (passOutcomes e h sel nodes w) ∧
          Grows w w' ∧
          ∀ node ∈ nodes, ¬ (h.leafMode = LeafMode.Party ∧ mapGet sel node.Name = none) →
            Requested w w' (Action.get node.Name) := by
  induction nodes with
  | nil =>
    intro errors w errors' w' hrun
    simp only [updateRootNodeStatusLoop] at hrun
    cases hrun
    simp [passOutcomes, grows_refl]
  | cons node rest ih =>
    intro errors w errors' w' hrun
    simp only [updateRootNodeStatusLoop] at hrun
    cases hB : updateRootNode e h sel node w with
    | mk r w1 =>
      rw [hB] at hrun
      cases r with
      | error p => cases hrun
      | ok o =>
        obtain ⟨hskip, hgrow, hreq⟩ := updateRootNode_spec hB
        have hrest : ∃ errs1, updateRootNodeStatusLoop e h sel rest errs1 w1
              = (Except.ok errors', w') ∧
            errs1 = errors ++ (match o.error? with | some err => [err] | none => []) := by
          cases o with
          | skipped => exact ⟨errors, hrun, by simp [NodeOutcome.error?]⟩
          | updated => exact ⟨errors, hrun, by simp [NodeOutcome.error?]⟩
          | failed err => exact ⟨errors ++ [err], hrun, by simp [NodeOutcome.error?]⟩
        obtain ⟨errs1, hloop, herrs1⟩ := hrest
        obtain ⟨hlen, herr, hall, hgrow2, hreq2⟩ := ih errs1 w1 errors' w' hloop
        have hpass : passOutcomes e h sel (node :: rest) w = o :: passOutcomes e h sel rest w1 := by
          simp only [passOutcomes, hB]
        rw [hpass]
        refine ⟨by simp [hlen], ?_, List.Forall₂.cons hskip hall, grows_trans hgrow hgrow2, ?_⟩
        · rw [herr, herrs1]
          cases ho : o.error? with
          | none => simp [List.filterMap_cons, ho]
          | some err => simp [List.filterMap_cons, ho]
        · intro n hn hnot
          rcases List.mem_cons.mp hn with hEq | hmem
          · subst hEq
            exact requested_of_grows_right (hreq hnot) hgrow2
          · exact requested_of_grows_left hgrow (hreq2 n hmem hnot)

theorem filterMap_error_length (outs : List NodeOutcome) :
    (outs.filterMap NodeOutcome.error?).length = outs.countP (fun o => o.error?.isSome) := by
  induction outs with
  | nil => rfl
  | cons o rest ih =>
    cases o <;> simp [List.filterMap_cons, NodeOutcome.error?, ih]

theorem filterMap_error_nil_iff (outs : List NodeOutcome) :
    outs.filterMap NodeOutcome.error? = [] ↔
      ∀ o ∈ outs, o = NodeOutcome.skipped ∨ o = NodeOutcome.updated := by
  induction outs with
  | nil => simp
  | cons o rest ih =>
    cases o <;> simp [List.filterMap_cons, NodeOutcome.error?, ih]

theorem aggregateCount_NewAggregate (errs : List Err) :
    aggregateCount (NewAggregate errs) = errs.length := by
  cases errs <;> simp [NewAggregate, aggregateCount]

theorem NewAggregate_none_iff (errs : List Err) : NewAggregate errs = none ↔ errs = [] := by
  cases errs <;> simp [NewAggregate]

/-- C7 (counterexample): in mode Party with a selector map that has no entry
for the root node, `UpdateRootNodeStatus` makes no request for the node and
returns nil, although the node was not updated; in mode ALL the same call
attempts the update and returns an aggregate of one error. -/
theorem UpdateRootNodeStatus_Party_skips_unselected :
    UpdateRootNodeStatus sampleEnv partyHandler [gpuRootNode] [] { nodes := [gpuRootNode] }
        = (Except.ok none, { nodes := [gpuRootNode], actions := [] }) ∧
      ((UpdateRootNodeStatus sampleEnv allHandler [gpuRootNode] []
          { nodes := [gpuRootNode] }).1.map aggregateCount = Except.ok 1 ∧
        (UpdateRootNodeStatus sampleEnv allHandler [gpuRootNode] []
          { nodes := [gpuRootNode] }).2.actions = [Action.get (str "kosmos-gpu-0")]) :=
  ⟨rfl, rfl, rfl⟩

/-- C7 (amended): when `UpdateRootNodeStatus` returns, every one of the N
nodes was reached, whatever the outcome of the others; a node is skipped
(no request, no error) exactly in mode Party when the selector map has no
entry under its name, and for every other node the update was attempted (its
Get was requested); the aggregate holds exactly one error for each attempted
node whose update did not succeed, and the result is nil exactly when every
node was skipped or updated. -/
theorem UpdateRootNodeStatus_aggregate (e : Env) (h : ClassificationHandler)
    (nodesInRoot : List Node) (sel : NodeSelectorMap) (w w' : World) (agg : Option (List Err))
    (hrun : UpdateRootNodeStatus e h nodesInRoot sel w = (Except.ok agg, w')) :
    (passOutcomes e h sel nodesInRoot w).length = nodesInRoot.length ∧
      List.Forall₂
        (fun node o =>
          o = NodeOutcome.skipped ↔ h.leafMode = LeafMode.Party ∧ mapGet sel node.Name = none)
        nodesInRoot (passOutcomes e h sel nodesInRoot w) ∧
      (∀ node ∈ nodesInRoot, ¬ (h.leafMode = LeafMode.Party ∧ mapGet sel node.Name = none) →
        Requested w w' (Action.get node.Name)) ∧
      agg = NewAggregate ((passOutcomes e h sel nodesInRoot w).filterMap NodeOutcome.error?) ∧
      aggregateCount agg
        = (passOutcomes e h sel nodesInRoot w).countP (fun o => o.error?.isSome) ∧
      (agg = none ↔
        ∀ o ∈ passOutcomes e h sel nodesInRoot w,
          o = NodeOutcome.skipped ∨ o = NodeOutcome.updated) := by
  unfold UpdateRootNodeStatus at hrun
  cases hL : updateRootNodeStatusLoop e h sel nodesInRoot [] w with
  | mk r w1 =>
    rw [hL] at hrun
    cases r with
    | error p => cases hrun
    | ok errors =>
      simp only at hrun
      cases hrun
      obtain ⟨hlen, herr, hall, _, hreq⟩ :=
        updateRootNodeStatusLoop_spec e h sel nodesInRoot [] w errors _ hL
      rw [List.nil_append] at herr
      refine ⟨hlen, hall, hreq, by rw [herr], ?_, ?_⟩
      · rw [aggregateCount_NewAggregate, herr, filterMap_error_length]
      · rw [NewAggregate_none_iff, herr, filterMap_error_nil_iff]

/-- C7 (witness): in mode ALL, of the root nodes `worker-7` (stored) and
`kosmos-gpu-0` (not stored) both are reached and one update fails. -/
theorem UpdateRootNodeStatus_aggregate_witness :
    ∃ agg w',
      UpdateRootNodeStatus worker7Env allHandler [{ Name := str "worker-7" }, gpuRootNode] []
          worker7World = (Except.ok agg, w') ∧
        aggregateCount agg = 1 ∧
        (passOutcomes worker7Env allHandler [] [{ Name := str "worker-7" }, gpuRootNode]
          worker7World).length = 2 := by
  have hthm := UpdateRootNodeStatus_aggregate worker7Env allHandler
    [{ Name := str "worker-7" }, gpuRootNode] [] worker7World _ _ rfl
  exact ⟨_, _, rfl, rfl, hthm.1⟩

theorem listOptionsOf_node (e : Env) (h : ClassificationHandler) (sel : NodeSelectorMap)
    (name : GoString) (hmode : h.leafMode = LeafMode.Node) :
    listOptionsOf e h sel name = some { FieldSelector := str "metadata.name=" ++ name } := by
  simp [listOptionsOf, hmode]

/-- The body of the loop in mode Node: the synced taints of every root node
stay synced, and after an update the taints of the node are synced and were
patched. -/
theorem updateRootNode_node {e : Env} {h : ClassificationHandler} {sel : NodeSelectorMap}
    {node : Node} {w w1 : World} {r : Except GoPanic NodeOutcome}
    (hmode : h.leafMode = LeafMode.Node) (hrun : updateRootNode e h sel node w = (r, w1)) :
    (∀ other, TaintsSynced e other w.nodes → TaintsSynced e other w1.nodes) ∧
      Grows w w1 ∧
      (r = Except.ok NodeOutcome.updated →
        TaintsSynced e node.Name w1.nodes ∧ TaintsPatched e node.Name w w1) := by
  unfold updateRootNode at hrun
  simp only [listOptionsOf_node e h sel node.Name hmode] at hrun
  have hkeep := retryLoop_keeps
    (updateNodeOnce e h node.Name { FieldSelector := str "metadata.name=" ++ node.Name } sel)
    (fun a b => ∀ other, TaintsSynced e other a.nodes → TaintsSynced e other b.nodes)
    (fun _ _ hs => hs) (fun _ _ _ hab hbc other hs => hbc other (hab other hs))
    (fun w0 => (updateNodeOnce_node e h node.Name sel w0 hmode).1) 5 none w
  have hgrow := retryLoop_keeps
    (updateNodeOnce e h node.Name { FieldSelector := str "metadata.name=" ++ node.Name } sel)
    Grows grows_refl (fun _ _ _ => grows_trans)
    (fun w0 => updateNodeOnce_grows e h node.Name _ sel w0) 5 none w
  have hgood := retryLoop_ok
    (updateNodeOnce e h node.Name { FieldSelector := str "metadata.name=" ++ node.Name } sel)
    Grows (fun a b => TaintsSynced e node.Name b.nodes ∧ TaintsPatched e node.Name a b)
    (fun w0 => updateNodeOnce_grows e h node.Name _ sel w0)
    (fun w0 => (updateNodeOnce_node e h node.Name sel w0 hmode).2)
    (fun a b c hab hgood =>
      ⟨hgood.1, by
        obtain ⟨leaf0, leafRest, hlist, hreq⟩ := hgood.2
        exact ⟨leaf0, leafRest, hlist, requested_of_grows_left hab hreq⟩⟩)
    5 none w (fun h5 => by cases h5)
  cases hR : RetryOnConflict
      (updateNodeOnce e h node.Name { FieldSelector := str "metadata.name=" ++ node.Name } sel)
      w with
  | mk res w2 =>
    unfold RetryOnConflict at hR
    rw [hR] at hkeep hgrow hgood
    unfold RetryOnConflict at hrun
    rw [hR] at hrun
    cases res with
    | ok x =>
      cases hrun
      exact ⟨hkeep, hgrow, fun _ => hgood rfl⟩
    | error f =>
      cases f with
      | panic p =>
        cases hrun
        exact ⟨hkeep, hgrow, fun hEq => by cases hEq⟩
      | error err =>
        cases hrun
        exact ⟨hkeep, hgrow, fun hEq => by cases hEq⟩

theorem updateRootNodeStatusLoop_node (e : Env) (h : ClassificationHandler)
    (sel : NodeSelectorMap) (hmode : h.leafMode = LeafMode.Node) (nodes : List Node) :
    ∀ (errors : List Err) (w : World) (errors' : List Err) (w' : World),
      updateRootNodeStatusLoop e h sel nodes errors w = (Except.ok errors', w') →
        (∀ other, TaintsSynced e other w.nodes → TaintsSynced e other w'.nodes) ∧
          Grows w w' ∧
          errors.length ≤ errors'.length ∧
          (errors'.length = errors.length →
            ∀ node ∈ nodes,
              TaintsSynced e node.Name w'.nodes ∧ TaintsPatched e node.Name w w') := by
  induction nodes with
  | nil =>
    intro errors w errors' w' hrun
    simp only [updateRootNodeStatusLoop] at hrun
    cases hrun
    exact ⟨fun _ hs => hs, grows_refl _, le_refl _, fun _ node hn => by cases hn⟩
  | cons node rest ih =>
    intro errors w errors' w' hrun
    simp only [updateRootNodeStatusLoop] at hrun
    cases hB : updateRootNode e h sel node w with
    | mk r w1 =>
      rw [hB] at hrun
      obtain ⟨hkeep, hgrow, hupd⟩ := updateRootNode_node hmode hB
      have hpatched : ∀ {name : GoString} {w2 : World}, Grows w1 w2 →
          TaintsPatched e name w w1 → TaintsPatched e name w w2 := by
        rintro name w2 hg ⟨leaf0, leafRest, hlist, hreq⟩
        exact ⟨leaf0, leafRest, hlist, requested_of_grows_right hreq hg⟩
      have hlater : ∀ {name : GoString} {w2 : World},
          TaintsPatched e name w1 w2 → TaintsPatched e name w w2 := by
        rintro name w2 ⟨leaf0, leafRest, hlist, hreq⟩
        exact ⟨leaf0, leafRest, hlist, requested_of_grows_left hgrow hreq⟩
      cases r with
      | error p => cases hrun
      | ok o =>
        cases o with
        | failed err =>
          simp only at hrun
          obtain ⟨hk2, hg2, hle, _⟩ := ih _ _ _ _ hrun
          refine ⟨fun other hs => hk2 other (hkeep other hs), grows_trans hgrow hg2, ?_, ?_⟩
          · simp only [List.length_append, List.length_singleton] at hle
            omega
          · intro hEq
            simp only [List.length_append, List.length_singleton] at hle
            omega
        | skipped =>
          simp only at hrun
          obtain ⟨hk2, hg2, hle, hall⟩ := ih _ _ _ _ hrun
          refine ⟨fun other hs => hk2 other (hkeep other hs), grows_trans hgrow hg2, hle, ?_⟩
          intro hEq n hn
          rcases List.mem_cons.mp hn with hhead | hmem
          · subst hhead
            have hopt := listOptionsOf_node e h sel n.Name hmode
            unfold updateRootNode at hB
            simp only [hopt] at hB
            split at hB <;> cases hB
          · exact ⟨(hall hEq n hmem).1, hlater (hall hEq n hmem).2⟩
        | updated =>
          simp only at hrun
          obtain ⟨hk2, hg2, hle, hall⟩ := ih _ _ _ _ hrun
          refine ⟨fun other hs => hk2 other (hkeep other hs), grows_trans hgrow hg2, hle, ?_⟩
          intro hEq n hn
          rcases List.mem_cons.mp hn with hhead | hmem
          · subst hhead
            obtain ⟨hsync, hpatch⟩ := hupd rfl
            exact ⟨hk2 _ hsync, hpatched hg2 hpatch⟩
          · exact ⟨(hall hEq n hmem).1, hlater (hall hEq n hmem).2⟩

/-- C6: in mode Node, after a pass of `UpdateRootNodeStatus` that returns
nil, for every root node of the pass the leaf listed a first node under its
name, the pass patched the root node with that leaf node's `spec.taints`
followed by the synthetic taint, and the stored root node has exactly this
taint list, which contains the synthetic taint. -/
theorem UpdateRootNodeStatus_Node_taints (e : Env) (h : ClassificationHandler)
    (nodesInRoot : List Node) (sel : NodeSelectorMap) (w w' : World)
    (hmode : h.leafMode = LeafMode.Node)
    (hrun : UpdateRootNodeStatus e h nodesInRoot sel w = (Except.ok none, w')) :
    ∀ node ∈ nodesInRoot, ∃ leaf0 leafRest stored,
      (e.leafListNodes { FieldSelector := str "metadata.name=" ++ node.Name }).list
          = some (leaf0 :: leafRest) ∧
        Requested w w' (Action.patch node.Name (leaf0.Taints ++ [syntheticTaint e])) ∧
        findNode w'.nodes node.Name = some stored ∧
        stored.Taints = leaf0.Taints ++ [syntheticTaint e] ∧
        syntheticTaint e ∈ stored.Taints := by
  unfold UpdateRootNodeStatus at hrun
  cases hL : updateRootNodeStatusLoop e h sel nodesInRoot [] w with
  | mk r w1 =>
    rw [hL] at hrun
    cases r with
    | error p => cases hrun
    | ok errors =>
      simp only at hrun
      have hw : w1 = w' := congrArg Prod.snd hrun
      have hagg : NewAggregate errors = none := Except.ok.inj (congrArg Prod.fst hrun)
      subst hw
      have herrors : errors = [] := (NewAggregate_none_iff errors).mp hagg
      subst herrors
      obtain ⟨_, _, _, hall⟩ := updateRootNodeStatusLoop_node e h sel hmode nodesInRoot [] w [] w1 hL
      intro node hnode
      obtain ⟨⟨leaf0, leafRest, stored, hlist, hfind, htaints⟩, ⟨l0, lRest, hlist2, hreq⟩⟩ :=
        hall rfl node hnode
      rw [hlist] at hlist2
      cases hlist2
      exact ⟨leaf0, leafRest, stored, hlist, hreq, hfind, htaints, by rw [htaints]; simp⟩

/-- C6 (witness): the leaf node `worker-7` has the taint foo=bar:NoSchedule;
after the pass the stored root node `worker-7` has that taint followed by the
synthetic taint. -/
theorem UpdateRootNodeStatus_Node_taints_witness :
    ∃ stored,
      findNode
          (UpdateRootNodeStatus worker7Env worker7Handler [{ Name := str "worker-7" }] []
            worker7World).2.nodes (str "worker-7") = some stored ∧
        stored.Taints =
          [{ Key := str "foo", Value := str "bar", Effect := str "NoSchedule" },
            syntheticTaint worker7Env] := by
  obtain ⟨leaf0, leafRest, stored, hlist, _, hfind, htaints, _⟩ :=
    UpdateRootNodeStatus_Node_taints worker7Env worker7Handler [{ Name := str "worker-7" }] []
      worker7World _ rfl rfl { Name := str "worker-7" } (List.mem_singleton.mpr rfl)
  have hleaf : leaf0 = worker7Leaf := by
    have hEq : some [worker7Leaf] = some (leaf0 :: leafRest) := hlist
    injection hEq with hEq
    injection hEq with hhead _
    exact hhead.symm
  subst hleaf
  exact ⟨stored, hfind, htaints⟩

end Kosmos
